import Mathlib

/-!
Verification development for the ADN-CPSim discrete-event co-simulation kernel.

Shallow embedding of the two subsystems the claims are about:

* the cooperative scheduler and typed event bus of `src/cps_coro_lib.h`
  (class `Scheduler`, the `Delay` and `EventAwaiter` awaitables, the
  thread-local active-scheduler binding of `AwaiterBase`, and
  `Task::promise_type`);
* the graph-topology service of `src/PowerSystemTopology.{h,cpp}`
  (`buildTopology`, `findPath`, `findCriticalLines`, `openBranch`).

Machine integers of the source (`int64_t` millisecond counts, `int` bus and
branch ids) are modelled as `Int`; none of the verified paths can overflow
64-bit arithmetic, so no modular reduction is applied.  C++ containers are
modelled as Lean lists: `std::queue` as a FIFO list, `std::multimap` as a
key-sorted list with ties in insertion order, `std::unordered_map` as an
association list with overwrite-on-insert, `std::vector` as a plain list
indexed with `List.getD` / `List.set`.  Recursive or loop-based source code
is embedded with explicit fuel where the C++ recursion is bounded by the
node count; every theorem that depends on a fuelled function proves that
the supplied fuel is sufficient or evaluates it on concrete input.
-/

set_option linter.unusedVariables false

/-! ## Part 1: the scheduler of cps_coro_lib.h -/

/-- Event identifier: `using EventId = uint64_t`. -/
abbrev EventId := Nat

/-- Opaque identity of a coroutine handle (`std::coroutine_handle<>`). -/
abbrev TaskId := Nat

/-- Virtual time: a signed 64-bit count of milliseconds
(`std::chrono::time_point<steady_clock, milliseconds>`). -/
abbrev Time := Int

/-- Core mutable state of `cps_coro::Scheduler`: the current virtual time
`current_time_`, the FIFO ready queue `ready_tasks_` and the deadline-ordered
timer multimap `timed_tasks_` (modelled as a list sorted by deadline, ties in
insertion order). -/
structure SchedState where
  now : Time
  ready : List TaskId
  timers : List (Time × TaskId)
deriving DecidableEq, Repr

/-- Scheduler::set_time. -/
def set_time (st : SchedState) (t : Time) : SchedState :=
  { st with now := t }

/-- Scheduler::advance_time. -/
def advance_time (st : SchedState) (d : Time) : SchedState :=
  { st with now := st.now + d }

/-- Scheduler::schedule: push a handle on the ready FIFO. -/
def schedule (st : SchedState) (h : TaskId) : SchedState :=
  { st with ready := st.ready ++ [h] }

/-- Insertion into the `timed_tasks_` multimap: `emplace` inserts at the upper
bound of the key, so entries with equal deadlines keep insertion order. -/
def insertTimer : List (Time × TaskId) → Time → TaskId → List (Time × TaskId)
  | [], t, h => [(t, h)]
  | e :: rest, t, h => if t < e.1 then (t, h) :: e :: rest else e :: insertTimer rest t h

/-- Scheduler::schedule_after: `timed_tasks_.emplace(current_time_ + delay, handle)`. -/
def schedule_after (st : SchedState) (d : Time) (h : TaskId) : SchedState :=
  { st with timers := insertTimer st.timers (st.now + d) h }

/-- The drain loop shared by `run_one_step` and `run_until`: while the earliest
timer deadline is at or before the current time, move that entry to the back of
the ready queue. -/
def drainLoop (t : Time) : List (Time × TaskId) → List TaskId → List (Time × TaskId) × List TaskId
  | [], r => ([], r)
  | e :: rest, r => if e.1 ≤ t then drainLoop t rest (r ++ [e.2]) else (e :: rest, r)

/-- Timer-draining phase of the scheduler loops. -/
def drainTimers (st : SchedState) : SchedState :=
  let p := drainLoop st.now st.timers st.ready
  { st with timers := p.1, ready := p.2 }

/-- Scheduler::run_one_step.  `eff h` stands for `h.resume()`: the
state transformation performed by the resumed coroutine (registering timers,
handlers, spawning, and so on); the boolean is the C++ return value. -/
def run_one_step (eff : TaskId → SchedState → SchedState) (st : SchedState) :
    Bool × SchedState :=
  match st.ready with
  | h :: rest => (true, eff h { st with ready := rest })
  | [] =>
    match st.timers with
    | [] => (false, st)
    | (t0, _) :: _ =>
      let st1 := if st.now < t0 then set_time st t0 else st
      let st2 := drainTimers st1
      match st2.ready with
      | h :: rest => (true, eff h { st2 with ready := rest })
      | [] => (true, st2)

/-- One primitive step of the `Scheduler::run_until` loop: either one
pop-and-resume from the ready queue, or (ready empty) the timer phase that
advances `current_time_` to the earliest deadline — unconditionally, with no
backward guard, unlike `run_one_step` — and drains, or, the loop guard having
failed, the final `if (current_time_ < end_time) set_time(end_time)`. -/
def run_until_step (eff : TaskId → SchedState → SchedState) (endTime : Time)
    (st : SchedState) : SchedState :=
  if st.now < endTime ∧ (st.ready ≠ [] ∨ st.timers ≠ []) then
    match st.ready with
    | h :: rest => eff h { st with ready := rest }
    | [] =>
      match st.timers with
      | [] => st
      | (t0, _) :: _ =>
        if endTime ≤ t0 then set_time st endTime
        else drainTimers (set_time st t0)
  else if st.now < endTime then set_time st endTime else st

/-- Scheduler::run_until as iteration of its primitive steps (fuelled; the C++
loop runs until its guard fails, which user tasks can postpone indefinitely). -/
def run_until (eff : TaskId → SchedState → SchedState) (endTime : Time) :
    Nat → SchedState → SchedState
  | 0, st => st
  | fuel + 1, st => run_until (eff) endTime fuel (run_until_step eff endTime st)

/-! ### The Delay awaiter -/

/-- Delay::await_ready: `return delay_time_.count() <= 0;` — a non-positive
delay makes the coroutine NOT suspend at all. -/
def Delay.await_ready (d : Time) : Bool :=
  decide (d ≤ 0)

/-- Delay::await_suspend with an active scheduler:
`scheduler->schedule_after(delay_time_, handle)`. -/
def Delay.await_suspend (d : Time) (h : TaskId) (st : SchedState) : SchedState :=
  schedule_after st d h

/-- Outcome of executing `co_await` on an awaitable. -/
inductive AwaitOutcome
  | continuedImmediately
  | suspended
deriving DecidableEq, Repr

/-- The `co_await cps_coro::delay(d)` protocol on the bound scheduler: if
`await_ready()` returns true the coroutine falls through without suspending
and the scheduler state is untouched; otherwise `await_suspend` files the
handle in the timer multimap. -/
def coAwaitDelay (d : Time) (h : TaskId) (st : SchedState) : AwaitOutcome × SchedState :=
  if Delay.await_ready d then (.continuedImmediately, st)
  else (.suspended, Delay.await_suspend d h st)

/-! ### Task::promise_type and uncaught errors -/

/-- What a coroutine promise does with an exception escaping the task body. -/
inductive ExceptionPolicy
  | terminateProcess
  | completeTaskAndContinue
deriving DecidableEq, Repr

/-- Task::promise_type::unhandled_exception: the body is
`{ std::terminate(); }` — the whole process is aborted. -/
def promise_unhandled_exception : ExceptionPolicy :=
  .terminateProcess

/-- Result of one scheduler step in a world where resumed task bodies may
raise: either the scheduler survives with a successor state, or the process
was aborted by `std::terminate`. -/
inductive StepOutcome
  | progressed (st : SchedState)
  | idle (st : SchedState)
  | processAborted
deriving DecidableEq, Repr

/-- Scheduler::run_one_step where `throws h = true` means the body of task `h`
raises an error that reaches the body root when resumed; by
`promise_unhandled_exception` that calls `std::terminate()`. -/
def run_one_step_exc (throws : TaskId → Bool) (st : SchedState) : StepOutcome :=
  match st.ready with
  | h :: rest =>
    if throws h then .processAborted else .progressed { st with ready := rest }
  | [] =>
    match st.timers with
    | [] => .idle st
    | (t0, _) :: _ =>
      let st1 := if st.now < t0 then set_time st t0 else st
      let st2 := drainTimers st1
      match st2.ready with
      | h :: rest =>
        if throws h then .processAborted else .progressed { st2 with ready := rest }
      | [] => .progressed st2

/-! ### The thread-local active-scheduler binding -/

/-- Identity of a live `Scheduler` object. -/
abbrev SchedulerId := Nat

/-- Scheduler::Scheduler: `AwaiterBase::active_scheduler_ = this;` —
unconditional overwrite of the thread-local binding. -/
def scheduler_ctor_bind (active : Option SchedulerId) (s : SchedulerId) :
    Option SchedulerId :=
  some s

/-- Scheduler::~Scheduler:
`if (AwaiterBase::active_scheduler_ == this) active_scheduler_ = nullptr;` —
the binding is cleared only when it still points at the dying instance. -/
def scheduler_dtor_bind (active : Option SchedulerId) (s : SchedulerId) :
    Option SchedulerId :=
  if active = some s then none else active

/-! ### The typed event bus -/

/-- A payload crossing the bus through `const void*`: `tag` is the static type
`EventData` of the `trigger_event<EventData>` instantiation (a runtime stand-in
for the C++ type), `val` the transported bits. -/
structure Payload where
  tag : Nat
  val : Int
deriving DecidableEq, Repr

/-- One entry of the `event_handlers_` multimap, as registered by
`EventAwaiter<T>::await_suspend`: `seq` is the multimap node identity in
registration order, `task` the captured coroutine handle, `tag` the declared
payload type `T` of the awaiter (`none` for the `EventAwaiter<void>`
specialisation, which ignores the data pointer). -/
structure Subscription where
  seq : Nat
  task : TaskId
  tag : Option Nat
deriving DecidableEq, Repr

/-- Event-bus state: `event_handlers_` (insertion-ordered; ties on one id keep
registration order, as `std::multimap` guarantees), the next node identity,
the `event_data_` slots that have been written (a task absent from `slots`
still has its value-initialised `EventData{}` default), and the order in which
`h.resume()` was invoked. -/
structure EventState where
  handlers : List (EventId × Subscription)
  nextSeq : Nat
  slots : List (TaskId × Payload)
  resumedLog : List TaskId
deriving DecidableEq, Repr

/-- Scheduler::register_event_handler: `event_handlers_.emplace(id, handler)`. -/
def register_event_handler (st : EventState) (id : EventId) (t : TaskId)
    (tag : Option Nat) : EventState :=
  { st with
    handlers := st.handlers ++ [(id, ⟨st.nextSeq, t, tag⟩)]
    nextSeq := st.nextSeq + 1 }

/-- Overwrite a task's awaiter slot (`event_data_ = *static_cast<const T*>(data)`). -/
def setSlot (slots : List (TaskId × Payload)) (t : TaskId) (p : Payload) :
    List (TaskId × Payload) :=
  (t, p) :: slots.filter (fun q => q.1 ≠ t)

/-- Read a task's awaiter slot; `none` means never written (still `T{}`). -/
def getSlot (slots : List (TaskId × Payload)) (t : TaskId) : Option Payload :=
  (slots.find? (fun q => q.1 = t)).map (fun q => q.2)

/-- EventAwaiter<T>::await_resume: `return event_data_;` — the stored value if
a delivery wrote it, otherwise the value-initialised default. -/
def EventAwaiter.await_resume (slots : List (TaskId × Payload)) (t : TaskId)
    (dflt : Payload) : Payload :=
  (getSlot slots t).getD dflt

/-- The handler lambda registered by `EventAwaiter<T>::await_suspend` (typed:
`if (data) event_data_ = *static_cast<const T*>(data); h.resume();`) and by
the `EventAwaiter<void>` specialisation (ignores data, only resumes).  Note
there is NO comparison between the subscription's declared tag and the tag of
the arriving payload: a typed awaiter stores whatever bits arrive. -/
def invokeHandler (st : EventState) (s : Subscription) (data : Option Payload) :
    EventState :=
  match s.tag, data with
  | some _, some p =>
    { st with
      slots := setSlot st.slots s.task p
      resumedLog := st.resumedLog ++ [s.task] }
  | some _, none => { st with resumedLog := st.resumedLog ++ [s.task] }
  | none, _ => { st with resumedLog := st.resumedLog ++ [s.task] }

/-- Registrations performed by a resumed coroutine while the dispatch loop of
one `trigger_event` call is still running (the scheduler-visible effect of
`h.resume()` relevant to the bus: a coroutine that re-awaits calls
`register_event_handler` again before suspending). -/
def applyReactions (st : EventState) (rs : List (EventId × TaskId × Option Nat)) :
    EventState :=
  rs.foldl (fun a r => register_event_handler a r.1 r.2.1 r.2.2) st

/-- The handlers `equal_range(id)` finds, in multimap order. -/
def subsFor (st : EventState) (id : EventId) : List Subscription :=
  (st.handlers.filter (fun p => p.1 = id)).map (fun p => p.2)

/-- One round of the dispatch loop body of `trigger_event`: call the copied
handler, then perform whatever re-registrations the resumed coroutine makes. -/
def dispatchOne (data : Option Payload)
    (react : Subscription → List (EventId × TaskId × Option Nat))
    (a : EventState) (s : Subscription) : EventState :=
  applyReactions (invokeHandler a s data) (react s)

/-- Scheduler::trigger_event, both overloads (`data = some payload` for the
template overload, `none` for the data-less one): copy the `equal_range(id)`
handlers into a local vector, erase that range from `event_handlers_`, then
call each copied handler in order; `react s` gives the re-registrations the
coroutine resumed by handler `s` performs before it suspends again. -/
def trigger_event_core (st : EventState) (id : EventId) (data : Option Payload)
    (react : Subscription → List (EventId × TaskId × Option Nat)) : EventState :=
  let snapshot := subsFor st id
  let st1 := { st with handlers := st.handlers.filter (fun p => ¬ p.1 = id) }
  snapshot.foldl (dispatchOne data react) st1

/-- `template <typename EventData> Scheduler::trigger_event(id, data)`. -/
def trigger_event (st : EventState) (id : EventId) (tag : Nat) (v : Int)
    (react : Subscription → List (EventId × TaskId × Option Nat)) : EventState :=
  trigger_event_core st id (some ⟨tag, v⟩) react

/-- `Scheduler::trigger_event(EventId)` — the data-less overload: handlers are
called with `nullptr`. -/
def trigger_event_void (st : EventState) (id : EventId)
    (react : Subscription → List (EventId × TaskId × Option Nat)) : EventState :=
  trigger_event_core st id none react

/-- Multimap node identities are strictly increasing along `handlers` (true of
every state built through `register_event_handler`). -/
abbrev SeqsIncreasing (st : EventState) : Prop :=
  st.handlers.Pairwise (fun p q => p.2.seq < q.2.seq)

/-- Every node identity is below the allocation counter. -/
abbrev SeqsBounded (st : EventState) : Prop :=
  ∀ p ∈ st.handlers, p.2.seq < st.nextSeq

/-- Formalisation of the spec sentence behind claim C1, following the SPEC's
words, not the source (the source has no such check): on delivery the kernel
compares the subscribed payload type with the published one and fails the
mismatched subscriber instead of delivering to it, so a mismatched subscriber
is never resumed as if it had received a normal delivery. -/
def specTypeCheckedDelivery (st : EventState) (id : EventId) (tag : Nat) (v : Int)
    (react : Subscription → List (EventId × TaskId × Option Nat)) : Prop :=
  ∀ s ∈ subsFor st id, s.tag ≠ some tag →
    s.task ∉ (trigger_event st id tag v react).resumedLog

/-! ## Part 2: the topology service of PowerSystemTopology.{h,cpp} -/

namespace PowerSystemTopology

/-- `using BusId = int`. -/
abbrev BusId := Int

/-- `using BranchId = int`. -/
abbrev BranchId := Int

/-- struct AdjacencyInfo. -/
structure AdjacencyInfo where
  branch_id : BranchId
  internal_bus_idx : Nat
deriving DecidableEq, Repr

/-- struct Path. -/
structure Path where
  buses : List BusId
  branches : List BranchId
deriving DecidableEq, Repr

/-- State of a `PowerSystemTopology` object.  The two `std::unordered_map`s
are modelled as association lists with overwrite-on-insert, so each key is
bound at most once and `find?` retrieves the binding. -/
structure Topology where
  adjacency_list : List (List AdjacencyInfo)
  bus_to_internal_idx : List (BusId × Nat)
  internal_idx_to_bus_id : List BusId
  branch_endpoints_map : List (BranchId × BusId × BusId)
deriving DecidableEq, Repr

instance : Inhabited Topology := ⟨⟨[], [], [], []⟩⟩

/-- PowerSystemTopology::getBusCount. -/
def getBusCount (topo : Topology) : Nat :=
  topo.internal_idx_to_bus_id.length

/-- PowerSystemTopology::isReady. -/
def isReady (topo : Topology) : Bool :=
  ¬ topo.adjacency_list.isEmpty

/-- Lookup in an association list modelling `std::unordered_map<BusId,int>`. -/
def lookupIdx (m : List (BusId × Nat)) (b : BusId) : Option Nat :=
  (m.find? (fun p => p.1 = b)).map (fun p => p.2)

/-- PowerSystemTopology::getBusInternalIndex; the C++ `-1` sentinel for an
unknown bus is rendered as `none`. -/
def getBusInternalIndex (topo : Topology) (b : BusId) : Option Nat :=
  lookupIdx topo.bus_to_internal_idx b

/-- Overwriting insert into the bus-index map (`bus_to_internal_idx[id] = i`). -/
def insertIdx (m : List (BusId × Nat)) (b : BusId) (i : Nat) : List (BusId × Nat) :=
  m.filter (fun p => p.1 ≠ b) ++ [(b, i)]

/-- The loop `for i: bus_to_internal_idx[bus_ids[i]] = i`. -/
def buildBusIndex (bus_ids : List BusId) : List (BusId × Nat) :=
  (List.range bus_ids.length).foldl
    (fun m i => insertIdx m (bus_ids.getD i 0) i) []

/-- Record one accepted branch in the adjacency lists: both endpoint entries
carry the same branch id (self-loops get two entries in the same list). -/
def addBranch (adj : List (List AdjacencyInfo)) (u v : Nat) (b : BranchId) :
    List (List AdjacencyInfo) :=
  let adj1 := adj.set u ((adj.getD u []) ++ [⟨b, v⟩])
  adj1.set v ((adj1.getD v []) ++ [⟨b, u⟩])

/-- Overwriting insert into `branch_endpoints_map`. -/
def insertEndpoints (m : List (BranchId × BusId × BusId)) (b : BranchId)
    (e : BusId × BusId) : List (BranchId × BusId × BusId) :=
  m.filter (fun p => p.1 ≠ b) ++ [(b, e)]

/-- Per-branch step of `buildTopology`: a branch whose either endpoint is not
in the bus-index map is skipped with a warning; otherwise both adjacency
entries and the endpoint record are added. -/
def buildStep (m : List (BusId × Nat))
    (acc : List (List AdjacencyInfo) × List (BranchId × BusId × BusId))
    (x : BranchId × BusId × BusId) :
    List (List AdjacencyInfo) × List (BranchId × BusId × BusId) :=
  match lookupIdx m x.2.1, lookupIdx m x.2.2 with
  | some u, some v => (addBranch acc.1 u v x.1, insertEndpoints acc.2 x.1 (x.2.1, x.2.2))
  | _, _ => acc

/-- PowerSystemTopology::buildTopology.  The C++ throws
`std::invalid_argument` on a length mismatch, rendered as `none`. -/
def buildTopology (bus_ids : List BusId) (branch_ids : List BranchId)
    (branch_endpoints : List (BusId × BusId)) : Option Topology :=
  if branch_ids.length = branch_endpoints.length then
    let m := buildBusIndex bus_ids
    let r := ((branch_ids.zip branch_endpoints).map (fun p => (p.1, p.2.1, p.2.2))).foldl
      (buildStep m)
      (List.replicate bus_ids.length ([] : List AdjacencyInfo), [])
    some ⟨r.1, m, bus_ids, r.2⟩
  else none

/-- PowerSystemTopology::openBranch: remove the branch's adjacency entry on
each endpoint (matching on the other endpoint's index AND the branch id, as
the `remove_if` lambdas do) and erase it from `branch_endpoints_map`. -/
def openBranch (topo : Topology) (bid : BranchId) : Bool × Topology :=
  match (topo.branch_endpoints_map.find? (fun p => p.1 = bid)) with
  | none => (false, topo)
  | some (_, b1, b2) =>
    match getBusInternalIndex topo b1, getBusInternalIndex topo b2 with
    | some u, some v =>
      let adj1 := topo.adjacency_list.set u
        ((topo.adjacency_list.getD u []).filter
          (fun c => ¬ (c.internal_bus_idx = v ∧ c.branch_id = bid)))
      let adj2 := adj1.set v
        ((adj1.getD v []).filter
          (fun c => ¬ (c.internal_bus_idx = u ∧ c.branch_id = bid)))
      (true, { topo with
        adjacency_list := adj2
        branch_endpoints_map := topo.branch_endpoints_map.filter (fun p => p.1 ≠ bid) })
    | _, _ => (false, topo)

/-- The adjacency-symmetry invariant of the topology service: every entry
`(b, v)` stored under a node `u` points inside the adjacency table and is
mirrored by an entry `(b, u)` stored under `v`. -/
abbrev SymAdj (adj : List (List AdjacencyInfo)) : Prop :=
  ∀ u, u < adj.length → ∀ e ∈ adj.getD u [],
    e.internal_bus_idx < adj.length ∧
      AdjacencyInfo.mk e.branch_id u ∈ adj.getD e.internal_bus_idx []

/-! ### Tarjan bridge search (findCriticalLines) -/

/-- DFS state of `findCriticalLinesUtil`: discovery times, low-links, parent
node per internal index (all with the C++ `-1` sentinel), the output vector
and the time counter. -/
structure TjState where
  disc : List Int
  low : List Int
  parent : List Int
  critical_lines : List BranchId
  time : Int
deriving DecidableEq, Repr

/-- PowerSystemTopology::findCriticalLinesUtil.  The recursion is fuelled;
each recursive call targets a node whose `disc` is still `-1` and marks it,
so the dynamic depth is bounded by the node count and the `busCount + 1` fuel
supplied by `findCriticalLines` is never exhausted.  Note the parent-NODE
filter `if (v == parent[u]) continue;`: every edge from `u` back to its DFS
parent node is skipped, including a parallel duplicate of the tree edge. -/
def criticalLinesUtil (adj : List (List AdjacencyInfo)) :
    Nat → Nat → TjState → TjState
  | 0, _, st => st
  | fuel + 1, u, st =>
    let t := st.time + 1
    let st := { st with time := t, disc := st.disc.set u t, low := st.low.set u t }
    (adj.getD u []).foldl
      (fun s c =>
        let v : Nat := c.internal_bus_idx
        if (Int.ofNat v) = s.parent.getD u (-1) then s
        else if s.disc.getD v (-1) ≠ -1 then
          { s with low := s.low.set u (min (s.low.getD u (-1)) (s.disc.getD v (-1))) }
        else
          let s1 := { s with parent := s.parent.set v (u : Int) }
          let s2 := criticalLinesUtil adj fuel v s1
          let s3 := { s2 with low := s2.low.set u (min (s2.low.getD u (-1)) (s2.low.getD v (-1))) }
          if s3.disc.getD u (-1) < s3.low.getD v (-1) then
            { s3 with critical_lines := s3.critical_lines ++ [c.branch_id] }
          else s3)
      st

/-- PowerSystemTopology::findCriticalLines. -/
def findCriticalLines (topo : Topology) : List BranchId :=
  if isReady topo then
    let n := getBusCount topo
    let init : TjState := ⟨List.replicate n (-1), List.replicate n (-1),
      List.replicate n (-1), [], 0⟩
    ((List.range n).foldl
      (fun s i =>
        if s.disc.getD i (-1) = -1 then criticalLinesUtil topo.adjacency_list (n + 1) i s
        else s)
      init).critical_lines
  else []

/-! ### Breadth-first path search (findPath) -/

/-- BFS working state of `findPath`: the queue, the visited vector and the
predecessor vector (`pair(-1, -1)` rendered as `none`). -/
structure BfsSt where
  queue : List Nat
  visited : List Bool
  pred : List (Option (Nat × BranchId))
deriving DecidableEq, Repr

/-- Body of the neighbour scan of one dequeued node `u`: skip branches in the
open set, skip visited targets, otherwise mark, record the predecessor edge
and enqueue. -/
def scanStep (openSet : List BranchId) (u : Nat) (s : BfsSt) (c : AdjacencyInfo) :
    BfsSt :=
  if c.branch_id ∈ openSet then s
  else if s.visited.getD c.internal_bus_idx false then s
  else
    { queue := s.queue ++ [c.internal_bus_idx]
      visited := s.visited.set c.internal_bus_idx true
      pred := s.pred.set c.internal_bus_idx (some (u, c.branch_id)) }

/-- The BFS loop of `findPath` (fuelled; each iteration pops one node and every
push marks a previously unvisited node, so `busCount + 1` fuel outlasts the
loop — proved below as part of the correctness theorem).  Returns the C++
`found` flag and the predecessor vector. -/
def bfsLoop (adj : List (List AdjacencyInfo)) (openSet : List BranchId) (ti : Nat) :
    Nat → BfsSt → Bool × List (Option (Nat × BranchId))
  | 0, s => (false, s.pred)
  | fuel + 1, s =>
    match s.queue with
    | [] => (false, s.pred)
    | u :: rest =>
      if u = ti then (true, s.pred)
      else bfsLoop adj openSet ti fuel
        ((adj.getD u []).foldl (scanStep openSet u) { s with queue := rest })

/-- Path reconstruction of `findPath`: climb predecessor links from the end
node, collecting bus ids and branch ids, then reverse (the recursion emits the
reversed-then-flipped order directly).  Fuelled by the node count plus one;
the predecessor chain of a BFS tree is shorter. -/
def rebuildPath (busIds : List BusId) (pred : List (Option (Nat × BranchId))) :
    Nat → Nat → List BusId × List BranchId
  | 0, _ => ([], [])
  | fuel + 1, cur =>
    match pred.getD cur none with
    | none => ([busIds.getD cur 0], [])
    | some (p, b) =>
      let r := rebuildPath busIds pred fuel p
      (r.1 ++ [busIds.getD cur 0], r.2 ++ [b])

/-- PowerSystemTopology::findPath. -/
def findPath (topo : Topology) (s t : BusId) (open_branches : List BranchId) :
    Option Path :=
  match getBusInternalIndex topo s, getBusInternalIndex topo t with
  | some si, some ti =>
    if si = ti then some ⟨[s], []⟩
    else
      let n := getBusCount topo
      let s0 : BfsSt := ⟨[si], (List.replicate n false).set si true, List.replicate n none⟩
      let r := bfsLoop topo.adjacency_list open_branches ti (n + 1) s0
      if r.1 then
        let p := rebuildPath topo.internal_idx_to_bus_id r.2 (n + 1) ti
        some ⟨p.1, p.2⟩
      else none
  | _, _ => none

/-! ### Graph-theoretic reference notions for the findPath claim -/

/-- A usable edge of the current topology under an exclusion set: an adjacency
entry `(b, v)` under `u` whose branch is not opened. -/
def EdgeB (adj : List (List AdjacencyInfo)) (openSet : List BranchId)
    (u : Nat) (b : BranchId) (v : Nat) : Prop :=
  AdjacencyInfo.mk b v ∈ adj.getD u [] ∧ b ∉ openSet

/-- Walks of a given edge count from the source `si`, along usable edges. -/
inductive Reach (adj : List (List AdjacencyInfo)) (openSet : List BranchId)
    (si : Nat) : Nat → Nat → Prop
  | zero : Reach adj openSet si 0 si
  | succ {k u b v} : Reach adj openSet si k u → EdgeB adj openSet u b v →
      Reach adj openSet si (k + 1) v

/-- `L` is the breadth-first (shortest edge-count) distance from `si` to `v`
under the exclusion set. -/
def IsDist (adj : List (List AdjacencyInfo)) (openSet : List BranchId)
    (si v L : Nat) : Prop :=
  Reach adj openSet si L v ∧ ∀ m, Reach adj openSet si m v → L ≤ m

/-- A walk rendered as its node sequence plus the branch used at each step. -/
inductive WalkIdx (adj : List (List AdjacencyInfo)) (openSet : List BranchId) :
    List Nat → List BranchId → Prop
  | single (v : Nat) : WalkIdx adj openSet [v] []
  | cons {u b v rest bs} : EdgeB adj openSet u b v →
      WalkIdx adj openSet (v :: rest) bs → WalkIdx adj openSet (u :: v :: rest) (b :: bs)

/-- Count of unvisited cells of the BFS visited vector. -/
def unvisCount (vis : List Bool) : Nat :=
  vis.countP (fun b => ! b)

/-- Count of visited cells of the BFS visited vector. -/
def visCount (vis : List Bool) : Nat :=
  vis.countP (fun b => b)

/-- Facts tying the BFS predecessor vector to the graph, shared by the loop
invariant and by the post-loop path reconstruction: the source has no
predecessor and distance 0; every visited node carries its true breadth-first
distance `dst`; every visited node other than the source has a predecessor
link that is a usable edge from a visited node one level closer; and each
level is bounded by the number of visited nodes (so the predecessor chain is
shorter than the bus count). -/
structure ChainInv (adj : List (List AdjacencyInfo)) (openSet : List BranchId)
    (si : Nat) (vis : List Bool) (pq : List (Option (Nat × BranchId)))
    (dst : Nat → Nat) : Prop where
  vis_si : vis.getD si false = true
  pred_si : pq.getD si none = none
  dst_si : dst si = 0
  dist :  ∀ v, vis.getD v false = true → IsDist adj openSet si v (dst v)
  chain : ∀ v, vis.getD v false = true → v ≠ si →
    ∃ u b, pq.getD v none = some (u, b) ∧ vis.getD u false = true ∧
      EdgeB adj openSet u b v ∧ dst v = dst u + 1
  bound : ∀ v, vis.getD v false = true → dst v + 1 ≤ visCount vis

/-- Loop invariant of the BFS of `findPath`, between iterations: `dst` is a
ghost assignment of breadth-first distances.  The queue holds exactly the
visited-but-unscanned nodes, in nondecreasing `dst` order spanning at most
two consecutive levels; every scanned node's usable neighbours are visited;
and the target, once visited, is still pending (the loop returns the moment
it pops the target). -/
structure BfsInv (adj : List (List AdjacencyInfo)) (openSet : List BranchId)
    (si ti n : Nat) (s : BfsSt) (dst : Nat → Nat) : Prop where
  vlen : s.visited.length = n
  plen : s.pred.length = n
  core : ChainInv adj openSet si s.visited s.pred dst
  Qlt : ∀ q ∈ s.queue, q < n
  Qvis : ∀ q ∈ s.queue, s.visited.getD q false = true
  Qnd : s.queue.Nodup
  Qlev : s.queue.Pairwise (fun a b => dst a ≤ dst b ∧ dst b ≤ dst a + 1)
  scanned : ∀ v, s.visited.getD v false = true → v ∉ s.queue →
    ∀ c ∈ adj.getD v [], c.branch_id ∉ openSet →
      s.visited.getD c.internal_bus_idx false = true
  target : s.visited.getD ti false = true → ti ∈ s.queue

/-- Mid-scan invariant of the BFS: node `u` has been popped and is being
scanned; the queue (the popped queue plus the nodes pushed so far) sits in
the band `[dst u, dst u + 1]`; every visited node other than `u` and the
pending ones is fully scanned. -/
structure MidInv (adj : List (List AdjacencyInfo)) (openSet : List BranchId)
    (si ti n : Nat) (u : Nat) (s : BfsSt) (dst : Nat → Nat) : Prop where
  vlen : s.visited.length = n
  plen : s.pred.length = n
  core : ChainInv adj openSet si s.visited s.pred dst
  u_lt : u < n
  u_vis : s.visited.getD u false = true
  u_notQ : u ∉ s.queue
  u_ne : u ≠ ti
  Qlt : ∀ q ∈ s.queue, q < n
  Qvis : ∀ q ∈ s.queue, s.visited.getD q false = true
  Qnd : s.queue.Nodup
  Qband : ∀ q ∈ s.queue, dst u ≤ dst q ∧ dst q ≤ dst u + 1
  Qlev : s.queue.Pairwise (fun a b => dst a ≤ dst b ∧ dst b ≤ dst a + 1)
  others_scanned : ∀ v, s.visited.getD v false = true → v ∉ s.queue → v ≠ u →
    ∀ c ∈ adj.getD v [], c.branch_id ∉ openSet →
      s.visited.getD c.internal_bus_idx false = true
  target : s.visited.getD ti false = true → ti ∈ s.queue

/-- In-bounds discipline of the adjacency table: every stored neighbour index
is a valid row (established by `buildTopology`, whose indices come from the
bus-index map). -/
abbrev AdjBounded (adj : List (List AdjacencyInfo)) (n : Nat) : Prop :=
  ∀ l ∈ adj, ∀ c ∈ l, c.internal_bus_idx < n

/-- Well-formedness of a `Topology` record as `buildTopology` leaves it: the
adjacency table has one row per bus, rows point inside the table, and the
bus-index map inverts the dense numbering (each binding's index is in range
and renders back to its bus id). -/
abbrev TopoWF (topo : Topology) : Prop :=
  topo.adjacency_list.length = getBusCount topo ∧
  AdjBounded topo.adjacency_list (getBusCount topo) ∧
  ∀ p ∈ topo.bus_to_internal_idx,
    p.2 < getBusCount topo ∧ topo.internal_idx_to_bus_id.getD p.2 0 = p.1

end PowerSystemTopology

/-! ## Part 3: theorems -/

/-! ### Helper lemmas for the event bus -/

theorem invokeHandler_handlers (a : EventState) (s : Subscription) (data : Option Payload) :
    (invokeHandler a s data).handlers = a.handlers := by
  unfold invokeHandler
  rcases s with ⟨sq, tk, tg⟩
  rcases tg with _ | τ <;> rcases data with _ | p <;> rfl

theorem invokeHandler_nextSeq (a : EventState) (s : Subscription) (data : Option Payload) :
    (invokeHandler a s data).nextSeq = a.nextSeq := by
  unfold invokeHandler
  rcases s with ⟨sq, tk, tg⟩
  rcases tg with _ | τ <;> rcases data with _ | p <;> rfl

theorem invokeHandler_log (a : EventState) (s : Subscription) (data : Option Payload) :
    (invokeHandler a s data).resumedLog = a.resumedLog ++ [s.task] := by
  unfold invokeHandler
  rcases s with ⟨sq, tk, tg⟩
  rcases tg with _ | τ <;> rcases data with _ | p <;> rfl

theorem invokeHandler_slots_none (a : EventState) (s : Subscription) :
    (invokeHandler a s none).slots = a.slots := by
  unfold invokeHandler
  rcases s with ⟨sq, tk, tg⟩
  rcases tg with _ | τ <;> rfl

theorem applyReactions_spec (rs : List (EventId × TaskId × Option Nat)) :
    ∀ a : EventState,
      (applyReactions a rs).resumedLog = a.resumedLog ∧
      (applyReactions a rs).slots = a.slots ∧
      a.nextSeq ≤ (applyReactions a rs).nextSeq ∧
      ∃ news, (applyReactions a rs).handlers = a.handlers ++ news ∧
        ∀ p ∈ news, a.nextSeq ≤ p.2.seq := by
  induction rs with
  | nil => intro a; refine ⟨rfl, rfl, le_rfl, [], by simp [applyReactions], by simp⟩
  | cons r rs ih =>
    intro a
    have hstep : applyReactions a (r :: rs) = applyReactions (register_event_handler a r.1 r.2.1 r.2.2) rs := rfl
    obtain ⟨h1, h2, h3, news, h4, h5⟩ := ih (register_event_handler a r.1 r.2.1 r.2.2)
    rw [hstep]
    refine ⟨h1, h2, le_trans (Nat.le_succ _) h3, (r.1, ⟨a.nextSeq, r.2.1, r.2.2⟩) :: news, ?_, ?_⟩
    · rw [h4]; simp [register_event_handler]
    · intro p hp
      rcases List.mem_cons.mp hp with h | h
      · subst h; exact le_rfl
      · exact le_trans (Nat.le_succ _) (h5 p h)

theorem dispatchOne_log (data : Option Payload) (react : Subscription → List (EventId × TaskId × Option Nat))
    (a : EventState) (s : Subscription) :
    (dispatchOne data react a s).resumedLog = a.resumedLog ++ [s.task] := by
  unfold dispatchOne
  rw [(applyReactions_spec (react s) (invokeHandler a s data)).1, invokeHandler_log]

theorem dispatchFold_spec (data : Option Payload)
    (react : Subscription → List (EventId × TaskId × Option Nat)) (L : List Subscription) :
    ∀ a : EventState,
      (L.foldl (dispatchOne data react) a).resumedLog = a.resumedLog ++ L.map Subscription.task ∧
      a.nextSeq ≤ (L.foldl (dispatchOne data react) a).nextSeq ∧
      ∃ news, (L.foldl (dispatchOne data react) a).handlers = a.handlers ++ news ∧
        ∀ p ∈ news, a.nextSeq ≤ p.2.seq := by
  induction L with
  | nil => intro a; exact ⟨by simp, le_rfl, [], by simp, by simp⟩
  | cons s L ih =>
    intro a
    obtain ⟨h1, h2, news, h3, h4⟩ := ih (dispatchOne data react a s)
    obtain ⟨r1, r2, r3, rnews, r4, r5⟩ := applyReactions_spec (react s) (invokeHandler a s data)
    have hne : (dispatchOne data react a s).nextSeq = (applyReactions (invokeHandler a s data) (react s)).nextSeq := rfl
    have hha : (dispatchOne data react a s).handlers = a.handlers ++ rnews := by
      show (applyReactions (invokeHandler a s data) (react s)).handlers = _
      rw [r4, invokeHandler_handlers]
    refine ⟨?_, ?_, rnews ++ news, ?_, ?_⟩
    · simp only [List.foldl_cons, h1, dispatchOne_log, List.map_cons]
      simp
    · simp only [List.foldl_cons]
      refine le_trans ?_ h2
      rw [hne]
      exact le_trans (le_of_eq (invokeHandler_nextSeq a s data).symm) r3
    · simp only [List.foldl_cons, h3, hha, List.append_assoc]
    · intro p hp
      rcases List.mem_append.mp hp with h | h
      · exact le_trans (le_of_eq (invokeHandler_nextSeq a s data).symm) (r5 p h)
      · refine le_trans ?_ (h4 p h)
        rw [hne]
        exact le_trans (le_of_eq (invokeHandler_nextSeq a s data).symm) r3

theorem dispatchFold_slots_none (react : Subscription → List (EventId × TaskId × Option Nat))
    (L : List Subscription) :
    ∀ a : EventState, (L.foldl (dispatchOne none react) a).slots = a.slots := by
  induction L with
  | nil => intro a; rfl
  | cons s L ih =>
    intro a
    rw [List.foldl_cons, ih]
    show (applyReactions (invokeHandler a s none) (react s)).slots = _
    rw [(applyReactions_spec (react s) (invokeHandler a s none)).2.1, invokeHandler_slots_none]

theorem find?_filter_other (l : List (TaskId × Payload)) (T T' : TaskId) (h : T' ≠ T) :
    (l.filter (fun q => q.1 ≠ T)).find? (fun q => q.1 = T') = l.find? (fun q => q.1 = T') := by
  induction l with
  | nil => rfl
  | cons e l ih =>
    by_cases he : e.1 = T
    · rw [List.filter_cons_of_neg (by simp [he]), ih,
        List.find?_cons_of_neg _ (by simp [he, Ne.symm h])]
    · by_cases h2 : e.1 = T'
      · rw [List.filter_cons_of_pos (by simp [he]),
          List.find?_cons_of_pos _ (by simp [h2]), List.find?_cons_of_pos _ (by simp [h2])]
      · rw [List.filter_cons_of_pos (by simp [he]),
          List.find?_cons_of_neg _ (by simp [h2]), List.find?_cons_of_neg _ (by simp [h2]), ih]

theorem getSlot_setSlot_self (sl : List (TaskId × Payload)) (T : TaskId) (p : Payload) :
    getSlot (setSlot sl T p) T = some p := by
  simp [getSlot, setSlot, List.find?_cons]

theorem getSlot_setSlot_other (sl : List (TaskId × Payload)) (T T' : TaskId) (p : Payload)
    (h : T' ≠ T) : getSlot (setSlot sl T p) T' = getSlot sl T' := by
  have h2 : (decide ((T, p).1 = T')) = false := by simp [Ne.symm h]
  simp only [getSlot, setSlot, List.find?_cons, h2]
  rw [find?_filter_other sl T T' h]

theorem invokeHandler_slots_typed (a : EventState) (s : Subscription) (p : Payload)
    (τ : Nat) (hτ : s.tag = some τ) :
    (invokeHandler a s (some p)).slots = setSlot a.slots s.task p := by
  unfold invokeHandler
  rw [hτ]

theorem invokeHandler_slots_voidsub (a : EventState) (s : Subscription)
    (data : Option Payload) (hτ : s.tag = none) :
    (invokeHandler a s data).slots = a.slots := by
  unfold invokeHandler
  rw [hτ]

theorem dispatchOne_slots (data : Option Payload)
    (react : Subscription → List (EventId × TaskId × Option Nat))
    (a : EventState) (s : Subscription) :
    (dispatchOne data react a s).slots = (invokeHandler a s data).slots :=
  (applyReactions_spec (react s) (invokeHandler a s data)).2.1

theorem dispatchFold_slot_holds (p : Payload)
    (react : Subscription → List (EventId × TaskId × Option Nat)) (L : List Subscription) :
    ∀ a T, getSlot a.slots T = some p →
      getSlot ((L.foldl (dispatchOne (some p) react) a)).slots T = some p := by
  induction L with
  | nil => intro a T h; exact h
  | cons s L ih =>
    intro a T h
    rw [List.foldl_cons]
    refine ih _ T ?_
    rw [dispatchOne_slots]
    rcases htag : s.tag with _ | τ
    · rw [invokeHandler_slots_voidsub a s _ htag]; exact h
    · rw [invokeHandler_slots_typed a s p τ htag]
      by_cases hT : T = s.task
      · subst hT; exact getSlot_setSlot_self _ _ _
      · rw [getSlot_setSlot_other _ _ _ _ hT]; exact h

theorem dispatchFold_slot_written (p : Payload)
    (react : Subscription → List (EventId × TaskId × Option Nat)) (L : List Subscription) :
    ∀ a s, s ∈ L → (∃ τ, s.tag = some τ) →
      getSlot ((L.foldl (dispatchOne (some p) react) a)).slots s.task = some p := by
  induction L with
  | nil => intro a s h; cases h
  | cons s0 L ih =>
    intro a s hs htag
    rcases List.mem_cons.mp hs with h | h
    · subst h
      rw [List.foldl_cons]
      obtain ⟨τ, hτ⟩ := htag
      refine dispatchFold_slot_holds p react L _ _ ?_
      rw [dispatchOne_slots, invokeHandler_slots_typed a s p τ hτ]
      exact getSlot_setSlot_self _ _ _
    · rw [List.foldl_cons]
      exact ih _ s h htag

/-! ### Claim C2: delay with non-positive duration -/

/-- Claim C2 counterexample: a task awaiting `delay(0)` does NOT get re-queued
at the back of the ready queue and does not yield: `Delay::await_ready` returns
true for `d ≤ 0`, so the coroutine falls through without suspending and the
scheduler state (the ready queue in particular) is untouched. -/
theorem coAwaitDelay_zero_falls_through :
    coAwaitDelay 0 0 { now := 0, ready := [], timers := [] } =
      (AwaitOutcome.continuedImmediately, { now := 0, ready := [], timers := [] }) ∧
    (coAwaitDelay 0 0 { now := 0, ready := [], timers := [] }).2.ready = [] := by
  exact ⟨rfl, rfl⟩

/-- Claim C2 amended: for every duration `d ≤ 0`, `co_await delay(d)` continues
immediately without suspending — the task is NOT enqueued on `ready`, yields
zero times, and the scheduler state is completely unchanged. -/
theorem coAwaitDelay_nonpos (d : Time) (h : TaskId) (st : SchedState) (hd : d ≤ 0) :
    coAwaitDelay d h st = (AwaitOutcome.continuedImmediately, st) := by
  simp [coAwaitDelay, Delay.await_ready, hd]

/-- Witness for the amended C2 theorem at a concrete negative duration. -/
theorem coAwaitDelay_nonpos_witness :
    coAwaitDelay (-3) 5 { now := 2, ready := [4], timers := [(7, 1)] } =
      (AwaitOutcome.continuedImmediately, { now := 2, ready := [4], timers := [(7, 1)] }) :=
  coAwaitDelay_nonpos (-3) 5 _ (by decide)

/-! ### Claim C3: uncaught error in a task body -/

/-- Claim C3 counterexample: resuming ready task 7 whose body raises an
uncaught error does not leave a completed-with-failure task and a running
scheduler — `promise_type::unhandled_exception` calls `std::terminate()`,
aborting the whole process. -/
theorem uncaught_error_aborts_counterexample :
    run_one_step_exc (fun _ => true) { now := 0, ready := [7], timers := [] } =
      StepOutcome.processAborted := rfl

/-- Claim C3 amended: when the scheduler resumes a task whose body raises an
error that is uncaught at the body root, the whole process is terminated
(`unhandled_exception` is `std::terminate`); the scheduler does not survive a
single task's failure. -/
theorem uncaught_error_aborts (throws : TaskId → Bool) (st : SchedState)
    (h : TaskId) (rest : List TaskId) (hready : st.ready = h :: rest)
    (hthrow : throws h = true) :
    run_one_step_exc throws st = StepOutcome.processAborted ∧
    promise_unhandled_exception = ExceptionPolicy.terminateProcess := by
  constructor
  · unfold run_one_step_exc
    rw [hready]
    simp [hthrow]
  · rfl

/-- Witness for the amended C3 theorem. -/
theorem uncaught_error_aborts_witness :
    run_one_step_exc (fun t => t == 3) { now := 1, ready := [3, 4], timers := [] } =
      StepOutcome.processAborted :=
  (uncaught_error_aborts (fun t => t == 3) _ 3 [4] rfl (by decide)).1

/-! ### Claim C9: the thread-local active-scheduler binding -/

/-- Claim C9: constructing a Scheduler unconditionally overwrites the
thread-local binding; destroying one clears it only when it still points at
that same instance; hence with two schedulers alive (construct `a`, then `b`),
destroying the unbound `a` leaves `b`'s binding untouched. -/
theorem scheduler_binding_ctor_dtor (a b : SchedulerId) (act : Option SchedulerId)
    (hne : a ≠ b) :
    scheduler_ctor_bind act a = some a ∧
    scheduler_dtor_bind (some a) a = none ∧
    (∀ cur : Option SchedulerId, cur ≠ some a → scheduler_dtor_bind cur a = cur) ∧
    scheduler_dtor_bind (scheduler_ctor_bind (scheduler_ctor_bind act a) b) a = some b := by
  refine ⟨rfl, by simp [scheduler_dtor_bind], ?_, ?_⟩
  · intro cur hcur
    simp [scheduler_dtor_bind, hcur]
  · have hba : (some b : Option SchedulerId) ≠ some a := by
      simp [Ne.symm hne]
    simp [scheduler_ctor_bind, scheduler_dtor_bind, hba]

/-- Witness for C9 with schedulers 0 and 1. -/
theorem scheduler_binding_witness :
    scheduler_dtor_bind (scheduler_ctor_bind (scheduler_ctor_bind none 0) 1) 0 = some 1 :=
  (scheduler_binding_ctor_dtor 0 1 none (by decide)).2.2.2

/-! ### Claim C10: data-less trigger resuming a typed awaiter -/

/-- Claim C10: the data-less overload `trigger_event(id)` passes `nullptr` to
every handler; the typed handler's `if (data)` guard skips the store, so every
snapshotted subscriber (typed ones included) is resumed normally, no awaiter
slot is written, and `await_resume` on a slot that was never written returns
the value-initialised default `T{}` — the null pointer is never dereferenced. -/
theorem trigger_event_void_ignores_null (st : EventState) (id : EventId)
    (react : Subscription → List (EventId × TaskId × Option Nat)) :
    (trigger_event_void st id react).slots = st.slots ∧
    (trigger_event_void st id react).resumedLog =
      st.resumedLog ++ (subsFor st id).map Subscription.task ∧
    ∀ t dflt, getSlot st.slots t = none →
      EventAwaiter.await_resume (trigger_event_void st id react).slots t dflt = dflt := by
  have hrw : trigger_event_void st id react =
      (subsFor st id).foldl (dispatchOne none react)
        { st with handlers := st.handlers.filter (fun p => ¬ p.1 = id) } := rfl
  have hslots : (trigger_event_void st id react).slots = st.slots := by
    rw [hrw, dispatchFold_slots_none]
  refine ⟨hslots, ?_, ?_⟩
  · rw [hrw, (dispatchFold_spec none react (subsFor st id) _).1]
  · intro t dflt hnone
    unfold EventAwaiter.await_resume
    rw [hslots, hnone]
    rfl

/-- Witness for C10: a subscriber of id 4 awaiting payload type 2 (task 5),
resumed by the data-less trigger, sees the default value. -/
theorem trigger_event_void_ignores_null_witness :
    EventAwaiter.await_resume
      (trigger_event_void ⟨[(4, ⟨0, 5, some 2⟩)], 1, [], []⟩ 4 (fun _ => [])).slots
      5 ⟨2, 0⟩ = ⟨2, 0⟩ ∧
    (trigger_event_void ⟨[(4, ⟨0, 5, some 2⟩)], 1, [], []⟩ 4 (fun _ => [])).resumedLog =
      [] ++ (subsFor ⟨[(4, ⟨0, 5, some 2⟩)], 1, [], []⟩ 4).map Subscription.task :=
  ⟨(trigger_event_void_ignores_null ⟨[(4, ⟨0, 5, some 2⟩)], 1, [], []⟩ 4 (fun _ => [])).2.2
      5 ⟨2, 0⟩ rfl,
    (trigger_event_void_ignores_null ⟨[(4, ⟨0, 5, some 2⟩)], 1, [], []⟩ 4 (fun _ => [])).2.1⟩

/-! ### Claim C1: no payload-type validation on delivery -/

/-- Claim C1 counterexample: subscriber task 1 awaits payload type 0 on id 9,
subscriber task 2 awaits payload type 1 on the same id; `trigger_event` with
payload type 0 and value 3 resumes BOTH subscribers as normal deliveries —
the mismatched task 2 is resumed with the foreign-typed payload reinterpreted
into its slot, and no `TypeMismatch` outcome exists anywhere in the kernel, so
the spec's type-checked-delivery property is false on the code. -/
theorem trigger_event_type_mismatch_counterexample :
    ¬ specTypeCheckedDelivery ⟨[(9, ⟨0, 1, some 0⟩), (9, ⟨1, 2, some 1⟩)], 2, [], []⟩
        9 0 3 (fun _ => []) ∧
    getSlot (trigger_event ⟨[(9, ⟨0, 1, some 0⟩), (9, ⟨1, 2, some 1⟩)], 2, [], []⟩
        9 0 3 (fun _ => [])).slots 2 = some ⟨0, 3⟩ := by
  constructor
  · intro hspec
    have h2 : (⟨1, 2, some 1⟩ : Subscription) ∈
        subsFor ⟨[(9, ⟨0, 1, some 0⟩), (9, ⟨1, 2, some 1⟩)], 2, [], []⟩ 9 := by decide
    have hnot := hspec ⟨1, 2, some 1⟩ h2 (by decide)
    exact hnot (by decide)
  · rfl

/-- Claim C1 amended: `trigger_event<U>(id, v)` performs no type validation at
all: every snapshotted subscriber of `id` is resumed as a normal delivery
regardless of its declared payload type, and every typed subscriber's slot —
matching or not — receives the raw published payload (the bits of `v` tagged
with the publisher's type `U`), with no error recorded anywhere. -/
theorem trigger_event_delivers_regardless_of_tag (st : EventState) (id : EventId)
    (tag : Nat) (v : Int) (react : Subscription → List (EventId × TaskId × Option Nat))
    (s : Subscription) (hs : s ∈ subsFor st id) :
    s.task ∈ (trigger_event st id tag v react).resumedLog ∧
    ∀ τ, s.tag = some τ →
      getSlot (trigger_event st id tag v react).slots s.task = some ⟨tag, v⟩ := by
  have hrw : trigger_event st id tag v react =
      (subsFor st id).foldl (dispatchOne (some ⟨tag, v⟩) react)
        { st with handlers := st.handlers.filter (fun p => ¬ p.1 = id) } := rfl
  constructor
  · rw [hrw, (dispatchFold_spec (some ⟨tag, v⟩) react (subsFor st id) _).1]
    refine List.mem_append.mpr (Or.inr ?_)
    exact List.mem_map.mpr ⟨s, hs, rfl⟩
  · intro τ hτ
    rw [hrw]
    exact dispatchFold_slot_written ⟨tag, v⟩ react (subsFor st id) _ s hs ⟨τ, hτ⟩

/-- Witness for the amended C1 theorem: the mismatched subscriber of the
counterexample state is resumed and its slot holds the publisher-tagged
payload. -/
theorem trigger_event_delivers_regardless_of_tag_witness :
    (2 : TaskId) ∈ (trigger_event ⟨[(9, ⟨0, 1, some 0⟩), (9, ⟨1, 2, some 1⟩)], 2, [], []⟩
        9 0 3 (fun _ => [])).resumedLog ∧
    getSlot (trigger_event ⟨[(9, ⟨0, 1, some 0⟩), (9, ⟨1, 2, some 1⟩)], 2, [], []⟩
        9 0 3 (fun _ => [])).slots 2 = some ⟨0, 3⟩ :=
  ⟨(trigger_event_delivers_regardless_of_tag _ 9 0 3 (fun _ => []) ⟨1, 2, some 1⟩
      (by decide)).1,
    (trigger_event_delivers_regardless_of_tag _ 9 0 3 (fun _ => []) ⟨1, 2, some 1⟩
      (by decide)).2 1 rfl⟩

/-! ### Claim C4: snapshot, order and one-shot semantics of trigger_event -/

theorem pairwise_seq_inj {l : List (EventId × Subscription)}
    (h : l.Pairwise (fun p q => p.2.seq < q.2.seq)) :
    ∀ p ∈ l, ∀ q ∈ l, p.2.seq = q.2.seq → p = q := by
  induction l with
  | nil => intro p hp; cases hp
  | cons e l ih =>
    intro p hp q hq heq
    rcases List.pairwise_cons.mp h with ⟨hhead, htail⟩
    rcases List.mem_cons.mp hp with hp' | hp' <;> rcases List.mem_cons.mp hq with hq' | hq'
    · rw [hp', hq']
    · exact absurd heq (by subst hp'; exact Nat.ne_of_lt (hhead q hq'))
    · exact absurd heq.symm (by subst hq'; exact Nat.ne_of_lt (hhead p hp'))
    · exact ih htail p hp' q hq' heq

/-- Claim C4: for `trigger_event(id, v)` — (1) the handlers called, in order,
are exactly the subscriptions registered under `id` before the call (each
snapshotted subscriber receives exactly one delivery, in registration order:
the snapshot's node identities are strictly increasing); (2) the surviving
handler map is the pre-call map minus the whole snapshot, plus only
registrations freshly created during dispatch (their node identities allocated
at or after the pre-call counter) — so subscriptions created while dispatching
are not notified in this round; (3) no snapshotted subscription remains
registered afterwards: one-shot semantics. -/
theorem trigger_event_one_shot (st : EventState) (id : EventId) (tag : Nat) (v : Int)
    (react : Subscription → List (EventId × TaskId × Option Nat))
    (hinc : SeqsIncreasing st) (hbd : SeqsBounded st) :
    (trigger_event st id tag v react).resumedLog =
      st.resumedLog ++ (subsFor st id).map Subscription.task ∧
    ((subsFor st id).map Subscription.seq).Pairwise (fun a b => a < b) ∧
    (∃ news, (trigger_event st id tag v react).handlers =
        st.handlers.filter (fun p => ¬ p.1 = id) ++ news ∧
        ∀ p ∈ news, st.nextSeq ≤ p.2.seq) ∧
    ∀ s ∈ subsFor st id, ∀ p ∈ (trigger_event st id tag v react).handlers,
      p.2.seq ≠ s.seq := by
  have hrw : trigger_event st id tag v react =
      (subsFor st id).foldl (dispatchOne (some ⟨tag, v⟩) react)
        { st with handlers := st.handlers.filter (fun p => ¬ p.1 = id) } := rfl
  obtain ⟨hlog, hseq, news, hhand, hnews⟩ :=
    dispatchFold_spec (some ⟨tag, v⟩) react (subsFor st id)
      { st with handlers := st.handlers.filter (fun p => ¬ p.1 = id) }
  have hsnap : ∀ s ∈ subsFor st id, ∃ q ∈ st.handlers, q.1 = id ∧ q.2 = s := by
    intro s hs
    obtain ⟨q, hq, hqs⟩ := List.mem_map.mp hs
    have hq' := List.mem_filter.mp hq
    exact ⟨q, hq'.1, by simpa using hq'.2, hqs⟩
  refine ⟨by rw [hrw]; exact hlog, ?_, ⟨news, by rw [hrw]; exact hhand, hnews⟩, ?_⟩
  · unfold subsFor
    rw [List.map_map]
    have h1 : (st.handlers.filter (fun p => p.1 = id)).Pairwise
        (fun p q => p.2.seq < q.2.seq) := List.Pairwise.filter _ hinc
    exact List.Pairwise.map _ (fun a b hab => hab) h1
  · intro s hs p hp
    rw [hrw, hhand] at hp
    obtain ⟨q, hqmem, hqid, hqs⟩ := hsnap s hs
    have hslt : s.seq < st.nextSeq := by
      have := hbd q hqmem
      rw [hqs] at this
      exact this
    rcases List.mem_append.mp hp with hpf | hpn
    · have hpmem := (List.mem_filter.mp hpf).1
      have hpid : ¬ p.1 = id := by simpa using (List.mem_filter.mp hpf).2
      intro heq
      have : p = q := pairwise_seq_inj hinc p hpmem q hqmem (by rw [heq, hqs])
      exact hpid (by rw [this, hqid])
    · intro heq
      have hge : st.nextSeq ≤ p.2.seq := hnews p hpn
      omega

/-- Witness for C4 at a concrete bus state with three subscriptions (two on
id 9, one on id 8) and a handler that re-subscribes under the same id. -/
theorem trigger_event_one_shot_witness :
    (trigger_event ⟨[(9, ⟨0, 1, some 0⟩), (8, ⟨1, 3, none⟩), (9, ⟨2, 2, some 1⟩)], 3, [], []⟩
        9 0 5 (fun s => [(9, s.task, s.tag)])).resumedLog =
      [] ++ (subsFor ⟨[(9, ⟨0, 1, some 0⟩), (8, ⟨1, 3, none⟩), (9, ⟨2, 2, some 1⟩)], 3, [], []⟩
        9).map Subscription.task :=
  (trigger_event_one_shot
      ⟨[(9, ⟨0, 1, some 0⟩), (8, ⟨1, 3, none⟩), (9, ⟨2, 2, some 1⟩)], 3, [], []⟩
      9 0 5 (fun s => [(9, s.task, s.tag)]) (by decide) (by decide)).1

/-! ### Claim C6: virtual-time monotonicity of the scheduler loops -/

theorem drainTimers_now (st : SchedState) : (drainTimers st).now = st.now := rfl

theorem run_one_step_now_ge (eff : TaskId → SchedState → SchedState)
    (heff : ∀ h s, s.now ≤ (eff h s).now) (st : SchedState) :
    st.now ≤ (run_one_step eff st).2.now := by
  obtain ⟨n, rd, tm⟩ := st
  cases rd with
  | cons h rest => exact heff h _
  | nil =>
    cases tm with
    | nil => exact le_rfl
    | cons e tl =>
      obtain ⟨t0, τ⟩ := e
      show (n : Time) ≤ (run_one_step eff ⟨n, [], (t0, τ) :: tl⟩).2.now
      unfold run_one_step
      simp only
      by_cases hlt : n < t0
      · rw [if_pos hlt]
        have hbase : (n : Time) ≤ (drainTimers (set_time ⟨n, [], (t0, τ) :: tl⟩ t0)).now := by
          rw [drainTimers_now]
          exact le_of_lt hlt
        cases hdr : (drainTimers (set_time ⟨n, [], (t0, τ) :: tl⟩ t0)).ready with
        | nil => exact hbase
        | cons h rest =>
          exact le_trans hbase (heff h _)
      · rw [if_neg hlt]
        have hbase : (n : Time) ≤ (drainTimers ⟨n, [], (t0, τ) :: tl⟩).now := le_rfl
        cases hdr : (drainTimers ⟨n, [], (t0, τ) :: tl⟩).ready with
        | nil => exact hbase
        | cons h rest =>
          exact le_trans hbase (heff h _)

/-- Claim C6 amended: `run_one_step` never decreases `now()` (its
advance-to-earliest-deadline is guarded), assuming resumed task bodies do not
themselves set the clock backwards; one iteration of the `run_until` loop has
the same property PROVIDED every pending timer deadline is at or after the
current time — the invariant that holds when timers are created only through
positive delays and the clock is not moved over pending deadlines with
`set_time` / `advance_time`. -/
theorem scheduler_time_monotone (eff : TaskId → SchedState → SchedState)
    (st : SchedState) (endTime : Time)
    (heff : ∀ h s, s.now ≤ (eff h s).now) :
    st.now ≤ (run_one_step eff st).2.now ∧
    ((∀ p ∈ st.timers, st.now ≤ p.1) → st.now ≤ (run_until_step eff endTime st).now) := by
  refine ⟨run_one_step_now_ge eff heff st, ?_⟩
  intro htm
  unfold run_until_step
  by_cases hg : st.now < endTime ∧ (st.ready ≠ [] ∨ st.timers ≠ [])
  · rw [if_pos hg]
    rcases hrd : st.ready with _ | ⟨h, rest⟩
    · rcases htl : st.timers with _ | ⟨⟨t0, τ⟩, tl⟩
      · exact le_rfl
      · show st.now ≤ (if endTime ≤ t0 then set_time st endTime
          else drainTimers (set_time st t0)).now
        by_cases he : endTime ≤ t0
        · rw [if_pos he]
          exact le_of_lt hg.1
        · rw [if_neg he, drainTimers_now]
          exact htm (t0, τ) (by rw [htl]; exact List.mem_cons_self _ _)
    · exact heff h _
  · rw [if_neg hg]
    by_cases h2 : st.now < endTime
    · rw [if_pos h2]
      exact le_of_lt h2
    · rw [if_neg h2]

/-- Claim C6 counterexample: the state reached through the public API by
`Scheduler()` (time 0), `schedule_after(5ms, task 0)` and `set_time(10)` has
`now() = 10` with a pending deadline at 5; the very next `run_until(20)`
iteration sets `now()` back to 5 — virtual time decreases. -/
theorem run_until_time_decreases_counterexample :
    (set_time (schedule_after ⟨0, [], []⟩ 5 0) 10).now = 10 ∧
    (run_until_step (fun _ s => s) 20 (set_time (schedule_after ⟨0, [], []⟩ 5 0) 10)).now = 5 := by
  exact ⟨rfl, rfl⟩

/-- Witness for the amended C6 theorem with identity resume effects and one
pending timer at deadline 3. -/
theorem scheduler_time_monotone_witness :
    (⟨0, [], [(3, 0)]⟩ : SchedState).now ≤
      (run_one_step (fun _ s => s) ⟨0, [], [(3, 0)]⟩).2.now ∧
    (⟨0, [], [(3, 0)]⟩ : SchedState).now ≤
      (run_until_step (fun _ s => s) 10 ⟨0, [], [(3, 0)]⟩).now :=
  ⟨(scheduler_time_monotone (fun _ s => s) ⟨0, [], [(3, 0)]⟩ 10 (fun _ _ => le_rfl)).1,
    (scheduler_time_monotone (fun _ s => s) ⟨0, [], [(3, 0)]⟩ 10 (fun _ _ => le_rfl)).2
      (by decide)⟩

/-! ### Claim C8: adjacency symmetry after build and across open_branch -/

namespace PowerSystemTopology

theorem getD_set_self {α : Type _} (l : List α) (i : Nat) (h : i < l.length) (a d : α) :
    (l.set i a).getD i d = a := by
  rw [List.getD_eq_getElem?_getD, List.getElem?_set_self h]
  rfl

theorem getD_set_ne {α : Type _} (l : List α) {i j : Nat} (h : i ≠ j) (a d : α) :
    (l.set i a).getD j d = l.getD j d := by
  rw [List.getD_eq_getElem?_getD, List.getElem?_set_ne h, ← List.getD_eq_getElem?_getD]

theorem getD_set_oob {α : Type _} (l : List α) {i : Nat} (h : ¬ i < l.length) (a d : α) :
    (l.set i a).getD i d = d := by
  rw [List.getD_eq_getElem?_getD, List.getElem?_set, if_pos rfl, if_neg h]
  rfl

theorem getD_oob {α : Type _} (l : List α) {i : Nat} (h : ¬ i < l.length) (d : α) :
    l.getD i d = d :=
  List.getD_eq_default l d (Nat.le_of_not_lt h)

theorem mem_addBranch (adj : List (List AdjacencyInfo)) (u v : Nat) (b : BranchId)
    (hu : u < adj.length) (hv : v < adj.length) (w : Nat) (e : AdjacencyInfo) :
    (e ∈ (addBranch adj u v b).getD w [] ↔
      e ∈ adj.getD w [] ∨ (w = u ∧ e = ⟨b, v⟩) ∨ (w = v ∧ e = ⟨b, u⟩)) := by
  unfold addBranch
  have hlen1 : (adj.set u ((adj.getD u []) ++ [(⟨b, v⟩ : AdjacencyInfo)])).length = adj.length :=
    List.length_set adj u _
  by_cases hwv : w = v
  · subst hwv
    rw [getD_set_self _ _ (by rw [hlen1]; exact hv)]
    by_cases hwu : w = u
    · subst hwu
      rw [getD_set_self _ _ hu]
      simp [or_assoc]
    · rw [getD_set_ne _ (fun hh => hwu hh.symm)]
      simp [hwu]
  · rw [getD_set_ne _ (fun hh => hwv hh.symm)]
    by_cases hwu : w = u
    · subst hwu
      rw [getD_set_self _ _ hu]
      simp [hwv]
    · rw [getD_set_ne _ (fun hh => hwu hh.symm)]
      simp [hwv, hwu]

theorem length_addBranch (adj : List (List AdjacencyInfo)) (u v : Nat) (b : BranchId) :
    (addBranch adj u v b).length = adj.length := by
  simp [addBranch]

theorem symAdj_addBranch {adj : List (List AdjacencyInfo)} {u v : Nat} {b : BranchId}
    (h : SymAdj adj) (hu : u < adj.length) (hv : v < adj.length) :
    SymAdj (addBranch adj u v b) := by
  intro w hw e he
  rw [length_addBranch] at hw
  rcases (mem_addBranch adj u v b hu hv w e).mp he with h1 | ⟨hwu, he'⟩ | ⟨hwv, he'⟩
  · obtain ⟨hb, hm⟩ := h w hw e h1
    exact ⟨by rw [length_addBranch]; exact hb,
      (mem_addBranch adj u v b hu hv _ _).mpr (Or.inl hm)⟩
  · subst he'
    refine ⟨by rw [length_addBranch]; exact hv, ?_⟩
    rw [hwu]
    exact (mem_addBranch adj u v b hu hv v _).mpr (Or.inr (Or.inr ⟨rfl, rfl⟩))
  · subst he'
    refine ⟨by rw [length_addBranch]; exact hu, ?_⟩
    rw [hwv]
    exact (mem_addBranch adj u v b hu hv u _).mpr (Or.inr (Or.inl ⟨rfl, rfl⟩))

theorem buildBusIndex_mem_lt (bus_ids : List BusId) :
    ∀ p ∈ buildBusIndex bus_ids, p.2 < bus_ids.length := by
  unfold buildBusIndex
  suffices h : ∀ (L : List Nat) (m : List (BusId × Nat)),
      (∀ i ∈ L, i < bus_ids.length) → (∀ p ∈ m, p.2 < bus_ids.length) →
      ∀ p ∈ L.foldl (fun m i => insertIdx m (bus_ids.getD i 0) i) m,
        p.2 < bus_ids.length by
    intro p hp
    exact h (List.range bus_ids.length) [] (fun i hi => List.mem_range.mp hi)
      (fun q hq => absurd hq (List.not_mem_nil q)) p hp
  intro L
  induction L with
  | nil => intro m h1 h2 p hp; exact h2 p hp
  | cons i L ih =>
    intro m h1 h2 p hp
    rw [List.foldl_cons] at hp
    refine ih _ (fun j hj => h1 j (List.mem_cons_of_mem _ hj)) ?_ p hp
    intro q hq
    unfold insertIdx at hq
    rcases List.mem_append.mp hq with hh | hh
    · exact h2 q (List.mem_filter.mp hh).1
    · rw [List.mem_singleton.mp hh]
      exact h1 i (List.mem_cons_self _ _)

theorem buildBusIndex_bound (bus_ids : List BusId) (b : BusId) (i : Nat)
    (h : lookupIdx (buildBusIndex bus_ids) b = some i) : i < bus_ids.length := by
  unfold lookupIdx at h
  cases hf : (buildBusIndex bus_ids).find? (fun p => p.1 = b) with
  | none => rw [hf] at h; cases h
  | some q =>
    rw [hf] at h
    have hq : q ∈ buildBusIndex bus_ids := List.mem_of_find?_eq_some hf
    have : q.2 = i := by simpa using h
    rw [← this]
    exact buildBusIndex_mem_lt bus_ids q hq

theorem buildStep_symAdj (m : List (BusId × Nat)) (n : Nat)
    (hm : ∀ b i, lookupIdx m b = some i → i < n)
    (acc : List (List AdjacencyInfo) × List (BranchId × BusId × BusId))
    (x : BranchId × BusId × BusId)
    (h1 : SymAdj acc.1) (h2 : acc.1.length = n) :
    SymAdj (buildStep m acc x).1 ∧ (buildStep m acc x).1.length = n := by
  unfold buildStep
  cases hl1 : lookupIdx m x.2.1 with
  | none => exact ⟨h1, h2⟩
  | some u =>
    cases hl2 : lookupIdx m x.2.2 with
    | none => exact ⟨h1, h2⟩
    | some v =>
      have hu : u < acc.1.length := by rw [h2]; exact hm _ _ hl1
      have hv : v < acc.1.length := by rw [h2]; exact hm _ _ hl2
      exact ⟨symAdj_addBranch h1 hu hv, by rw [length_addBranch]; exact h2⟩

theorem buildFold_symAdj (m : List (BusId × Nat)) (n : Nat)
    (hm : ∀ b i, lookupIdx m b = some i → i < n)
    (L : List (BranchId × BusId × BusId)) :
    ∀ acc, SymAdj acc.1 → acc.1.length = n →
      SymAdj (L.foldl (buildStep m) acc).1 ∧ (L.foldl (buildStep m) acc).1.length = n := by
  induction L with
  | nil => intro acc h1 h2; exact ⟨h1, h2⟩
  | cons x L ih =>
    intro acc h1 h2
    rw [List.foldl_cons]
    obtain ⟨g1, g2⟩ := buildStep_symAdj m n hm acc x h1 h2
    exact ih _ g1 g2

theorem symAdj_replicate (n : Nat) : SymAdj (List.replicate n ([] : List AdjacencyInfo)) := by
  intro u hu e he
  rw [List.getD_eq_getElem?_getD, List.getElem?_replicate] at he
  by_cases h : u < n
  · rw [if_pos h] at he
    cases he
  · rw [if_neg h] at he
    cases he

/-- Claim C8, part 1: `buildTopology` establishes adjacency symmetry (and the
adjacency table has one row per bus). -/
theorem buildTopology_symAdj (bus_ids : List BusId) (branch_ids : List BranchId)
    (beps : List (BusId × BusId)) (topo : Topology)
    (h : buildTopology bus_ids branch_ids beps = some topo) :
    SymAdj topo.adjacency_list ∧ topo.adjacency_list.length = getBusCount topo := by
  unfold buildTopology at h
  by_cases hlen : branch_ids.length = beps.length
  · rw [if_pos hlen] at h
    have htopo := (Option.some.injEq _ _).mp h
    subst htopo
    have hfold := buildFold_symAdj (buildBusIndex bus_ids) bus_ids.length
      (buildBusIndex_bound bus_ids)
      ((branch_ids.zip beps).map (fun p => (p.1, p.2.1, p.2.2)))
      (List.replicate bus_ids.length ([] : List AdjacencyInfo), [])
      (symAdj_replicate bus_ids.length) (List.length_replicate _ _)
    exact ⟨hfold.1, by simpa [getBusCount] using hfold.2⟩
  · rw [if_neg hlen] at h
    cases h

theorem mem_set_filter_set (A : List (List AdjacencyInfo)) (u v : Nat)
    (p1 p2 : AdjacencyInfo → Bool) (w : Nat) (e : AdjacencyInfo) :
    (e ∈ ((A.set u ((A.getD u []).filter p1)).set v
          (((A.set u ((A.getD u []).filter p1)).getD v []).filter p2)).getD w [] ↔
      e ∈ A.getD w [] ∧ (w = u → p1 e = true) ∧ (w = v → p2 e = true)) := by
  have hlen1 : (A.set u ((A.getD u []).filter p1)).length = A.length := List.length_set A u _
  have hA1 : ∀ z, (A.set u ((A.getD u []).filter p1)).getD z [] =
      if z = u then (A.getD z []).filter p1 else A.getD z [] := by
    intro z
    by_cases hz : z = u
    · subst hz
      rw [if_pos rfl]
      by_cases hub : z < A.length
      · exact getD_set_self _ _ hub _ _
      · rw [getD_set_oob _ hub, getD_oob _ hub]
        rfl
    · rw [if_neg hz, getD_set_ne _ (fun hh => hz hh.symm)]
  have hA2 : ∀ z, ((A.set u ((A.getD u []).filter p1)).set v
        (((A.set u ((A.getD u []).filter p1)).getD v []).filter p2)).getD z [] =
      if z = v then ((A.set u ((A.getD u []).filter p1)).getD v []).filter p2
      else (A.set u ((A.getD u []).filter p1)).getD z [] := by
    intro z
    by_cases hz : z = v
    · subst hz
      rw [if_pos rfl]
      by_cases hvb : z < (A.set u ((A.getD u []).filter p1)).length
      · exact getD_set_self _ _ hvb _ _
      · have hvb' : ¬ z < A.length := by rw [← hlen1]; exact hvb
        rw [getD_set_oob _ hvb, hA1]
        by_cases hzu : z = u
        · rw [if_pos hzu, getD_oob _ hvb']
          rfl
        · rw [if_neg hzu, getD_oob _ hvb']
          rfl
    · rw [if_neg hz, getD_set_ne _ (fun hh => hz hh.symm)]
  rw [hA2 w]
  by_cases hwv : w = v
  · rw [if_pos hwv, hA1 v]
    by_cases hvu : v = u
    · rw [if_pos hvu]
      constructor
      · intro hin
        obtain ⟨hin1, hp2⟩ := List.mem_filter.mp hin
        obtain ⟨hin0, hp1⟩ := List.mem_filter.mp hin1
        refine ⟨by rw [hwv]; exact hin0, fun _ => hp1, fun _ => hp2⟩
      · intro ⟨hmem, hp1, hp2⟩
        refine List.mem_filter.mpr ⟨List.mem_filter.mpr ⟨?_, hp1 (hwv.trans hvu)⟩, hp2 hwv⟩
        rw [← hwv]; exact hmem
    · rw [if_neg hvu]
      constructor
      · intro hin
        obtain ⟨hmem, hp2⟩ := List.mem_filter.mp hin
        exact ⟨by rw [hwv]; exact hmem, fun hh => absurd (hwv.symm.trans hh) hvu,
          fun _ => hp2⟩
      · intro ⟨hmem, _, hp2⟩
        exact List.mem_filter.mpr ⟨by rw [← hwv]; exact hmem, hp2 hwv⟩
  · rw [if_neg hwv, hA1 w]
    by_cases hwu : w = u
    · rw [if_pos hwu]
      constructor
      · intro hin
        obtain ⟨hmem, hp1⟩ := List.mem_filter.mp hin
        exact ⟨hmem, fun _ => hp1, fun hh => absurd hh hwv⟩
      · intro ⟨hmem, hp1, _⟩
        exact List.mem_filter.mpr ⟨hmem, hp1 hwu⟩
    · rw [if_neg hwu]
      exact ⟨fun hmem => ⟨hmem, fun hh => absurd hh hwu, fun hh => absurd hh hwv⟩,
        fun hh => hh.1⟩

/-- Claim C8, part 2: `openBranch` preserves adjacency symmetry, whichever
branch is opened (the removal matches the entry and its mirror together). -/
theorem symAdj_openBranch (topo : Topology) (bid : BranchId)
    (h : SymAdj topo.adjacency_list) : SymAdj (openBranch topo bid).2.adjacency_list := by
  unfold openBranch
  cases hf : topo.branch_endpoints_map.find? (fun p => p.1 = bid) with
  | none => exact h
  | some q =>
    obtain ⟨bq, b1, b2⟩ := q
    dsimp only
    cases h1 : getBusInternalIndex topo b1 with
    | none => exact h
    | some u =>
      cases h2 : getBusInternalIndex topo b2 with
      | none => exact h
      | some v =>
        dsimp only
        intro w hw e he
        have hlen : ((topo.adjacency_list.set u
              ((topo.adjacency_list.getD u []).filter
                (fun c => ¬ (c.internal_bus_idx = v ∧ c.branch_id = bid)))).set v
              (((topo.adjacency_list.set u
                ((topo.adjacency_list.getD u []).filter
                  (fun c => ¬ (c.internal_bus_idx = v ∧ c.branch_id = bid)))).getD v []).filter
                (fun c => ¬ (c.internal_bus_idx = u ∧ c.branch_id = bid)))).length =
            topo.adjacency_list.length := by
          rw [List.length_set, List.length_set]
        rw [hlen] at hw
        obtain ⟨hmemA, hk1, hk2⟩ := (mem_set_filter_set topo.adjacency_list u v _ _ w e).mp he
        obtain ⟨hb, hm⟩ := h w hw e hmemA
        refine ⟨by rw [hlen]; exact hb,
          (mem_set_filter_set topo.adjacency_list u v _ _ _ _).mpr ⟨hm, ?_, ?_⟩⟩
        · intro hiu
          by_contra hc
          have hprop : w = v ∧ e.branch_id = bid := by
            have := of_decide_eq_false (Bool.not_eq_true _ ▸ hc :
              (decide ¬ ((⟨e.branch_id, w⟩ : AdjacencyInfo).internal_bus_idx = v ∧
                (⟨e.branch_id, w⟩ : AdjacencyInfo).branch_id = bid)) = false)
            simpa using not_not.mp this
          have hk2' := hk2 hprop.1
          rw [decide_eq_true_eq] at hk2'
          exact hk2' ⟨hiu, hprop.2⟩
        · intro hiv
          by_contra hc
          have hprop : w = u ∧ e.branch_id = bid := by
            have := of_decide_eq_false (Bool.not_eq_true _ ▸ hc :
              (decide ¬ ((⟨e.branch_id, w⟩ : AdjacencyInfo).internal_bus_idx = u ∧
                (⟨e.branch_id, w⟩ : AdjacencyInfo).branch_id = bid)) = false)
            simpa using not_not.mp this
          have hk1' := hk1 hprop.1
          rw [decide_eq_true_eq] at hk1'
          exact hk1' ⟨hiv, hprop.2⟩

/-- Claim C8: adjacency symmetry is an invariant of the topology service —
established by `buildTopology` and preserved by every `openBranch` call. -/
theorem adjacency_symmetry_invariant (bus_ids : List BusId)
    (branch_ids : List BranchId) (beps : List (BusId × BusId)) (topo : Topology)
    (T : Topology) (bid : BranchId)
    (hbuild : buildTopology bus_ids branch_ids beps = some topo)
    (hsym : SymAdj T.adjacency_list) :
    SymAdj topo.adjacency_list ∧ SymAdj (openBranch T bid).2.adjacency_list :=
  ⟨(buildTopology_symAdj bus_ids branch_ids beps topo hbuild).1,
    symAdj_openBranch T bid hsym⟩

end PowerSystemTopology

namespace PowerSystemTopology

/-- Witness for C8 on the two-bus one-branch topology, opening branch 100. -/
theorem adjacency_symmetry_invariant_witness :
    SymAdj (⟨[[⟨100, 1⟩], [⟨100, 0⟩]], [(1, 0), (2, 1)], [1, 2], [(100, 1, 2)]⟩ :
      Topology).adjacency_list ∧
    SymAdj (openBranch
      (⟨[[⟨100, 1⟩], [⟨100, 0⟩]], [(1, 0), (2, 1)], [1, 2], [(100, 1, 2)]⟩ : Topology)
      100).2.adjacency_list :=
  adjacency_symmetry_invariant [1, 2] [100] [(1, 2)]
    ⟨[[⟨100, 1⟩], [⟨100, 0⟩]], [(1, 0), (2, 1)], [1, 2], [(100, 1, 2)]⟩
    ⟨[[⟨100, 1⟩], [⟨100, 0⟩]], [(1, 0), (2, 1)], [1, 2], [(100, 1, 2)]⟩
    100 (by decide) (by decide)

end PowerSystemTopology

/-! ### Claim C5: parallel branches and the parent-node bridge filter -/

namespace PowerSystemTopology

/-- Claim C5 counterexample: buses {1, 2} joined by the two parallel branches
100 and 101.  `findCriticalLines` reports branch 100 — one of the two parallel
branches — as a bridge, because the parent-NODE filter `v == parent[u]` also
skips the parallel duplicate edge back to the parent, so `low` of the child
never sees the second branch.  The claim that neither parallel branch is
reported is therefore false on the code. -/
theorem parallel_branch_reported_counterexample :
    (100 : BranchId) ∈ findCriticalLines
      ((buildTopology [1, 2] [100, 101] [(1, 2), (1, 2)]).getD default) ∧
    findCriticalLines ((buildTopology [1, 2] [100, 101] [(1, 2), (1, 2)]).getD default) =
      [100] := by
  exact ⟨by decide, by decide⟩

/-- Claim C5 amended: in a topology where two parallel branches with distinct
endpoints' bus ids `a ≠ b` connect the same two buses, `findCriticalLines`
reports exactly the first-listed branch (the DFS tree edge of the pair) as a
bridge: the classical parent-node formulation skips every edge back to the
parent node — the parallel duplicate included — so the tree edge's child keeps
`low > disc(parent)` and the tree edge is classified critical even though its
removal does not disconnect the pair. -/
theorem parallel_pair_tree_edge_reported (a b : BusId) (i1 i2 : BranchId) (hab : a ≠ b) :
    findCriticalLines ((buildTopology [a, b] [i1, i2] [(a, b), (a, b)]).getD default) =
      [i1] := by
  have hba : b ≠ a := Ne.symm hab
  simp [buildTopology, buildBusIndex, insertIdx, buildStep, lookupIdx, addBranch,
    insertEndpoints, findCriticalLines, isReady, getBusCount, criticalLinesUtil,
    List.range_succ, hab, hba]

/-- Witness for the amended C5 theorem at buses 7, 9 and branches 41, 42. -/
theorem parallel_pair_tree_edge_reported_witness :
    findCriticalLines ((buildTopology [7, 9] [41, 42] [(7, 9), (7, 9)]).getD default) =
      [41] :=
  parallel_pair_tree_edge_reported 7 9 41 42 (by decide)

end PowerSystemTopology

/-! ### Claim C7: findPath — BFS path search -/

namespace PowerSystemTopology

theorem getD_replicate {α : Type _} (na : Nat) (a : α) (i : Nat) :
    (List.replicate na a).getD i a = a := by
  by_cases h : i < na
  · rw [List.getD_eq_getElem?_getD, List.getElem?_replicate, if_pos h]
    rfl
  · exact getD_oob _ (by rw [List.length_replicate]; exact h) _

theorem getD_mem_of_lt {α : Type _} (l : List α) (i : Nat) (h : i < l.length) (d : α) :
    l.getD i d ∈ l := by
  rw [List.getD_eq_getElem?_getD, List.getElem?_eq_getElem h]
  exact List.getElem_mem h

theorem edgeB_lt {adj : List (List AdjacencyInfo)} {openSet : List BranchId}
    {n : Nat} (hb : AdjBounded adj n)
    {u : Nat} {br : BranchId} {v : Nat} (h : EdgeB adj openSet u br v) : v < n := by
  obtain ⟨hc, _⟩ := h
  by_cases hu : u < adj.length
  · exact hb _ (getD_mem_of_lt adj u hu []) _ hc
  · rw [getD_oob _ hu] at hc
    cases hc

theorem reach_dst_le {adj : List (List AdjacencyInfo)} {openSet : List BranchId}
    {si v L k : Nat} (h : IsDist adj openSet si v L)
    (hr : Reach adj openSet si k v) : L ≤ k :=
  h.2 k hr

/-- Escape lemma for the mid-scan invariant: a walk of length `k` from the
source to a still-unvisited node must leave the visited region through a
pending node or through the node currently being scanned, so
`k ≥ dst u + 1`. -/
theorem midInv_escape {adj : List (List AdjacencyInfo)} {openSet : List BranchId}
    {si ti n u : Nat} {s : BfsSt} {dst : Nat → Nat}
    (M : MidInv adj openSet si ti n u s dst) :
    ∀ k v, Reach adj openSet si k v → s.visited.getD v false = false →
      dst u + 1 ≤ k := by
  intro k v hr
  induction hr with
  | zero =>
    intro hv
    rw [M.core.vis_si] at hv
    cases hv
  | succ hr' he ih =>
    rename_i k' u' b' v'
    intro hv
    by_cases hu' : s.visited.getD u' false = true
    · by_cases hq : u' ∈ s.queue
      · have h1 : dst u ≤ dst u' := (M.Qband u' hq).1
        have h2 : dst u' ≤ k' := reach_dst_le (M.core.dist u' hu') hr'
        omega
      · by_cases huu : u' = u
        · subst huu
          have h2 : dst u' ≤ k' := reach_dst_le (M.core.dist u' hu') hr'
          omega
        · have := M.others_scanned u' hu' hq huu _ he.1 he.2
          rw [this] at hv
          cases hv
    · have := ih (Bool.eq_false_iff.mpr hu')
      omega

/-- Escape lemma for the between-iterations invariant. -/
theorem bfsInv_escape {adj : List (List AdjacencyInfo)} {openSet : List BranchId}
    {si ti n : Nat} {s : BfsSt} {dst : Nat → Nat}
    (B : BfsInv adj openSet si ti n s dst) :
    ∀ k v, Reach adj openSet si k v → s.visited.getD v false = false →
      ∃ q ∈ s.queue, dst q + 1 ≤ k := by
  intro k v hr
  induction hr with
  | zero =>
    intro hv
    rw [B.core.vis_si] at hv
    cases hv
  | succ hr' he ih =>
    rename_i k' u' b' v'
    intro hv
    by_cases hu' : s.visited.getD u' false = true
    · by_cases hq : u' ∈ s.queue
      · have h2 : dst u' ≤ k' := reach_dst_le (B.core.dist u' hu') hr'
        exact ⟨u', hq, by omega⟩
      · have := B.scanned u' hu' hq _ he.1 he.2
        rw [this] at hv
        cases hv
    · obtain ⟨q, hqm, hqd⟩ := ih (Bool.eq_false_iff.mpr hu')
      exact ⟨q, hqm, by omega⟩

end PowerSystemTopology

namespace PowerSystemTopology

theorem visCount_set_true {vis : List Bool} {v : Nat} (hlt : v < vis.length)
    (hfalse : vis.getD v false = false) :
    visCount (vis.set v true) = visCount vis + 1 := by
  have hget : vis[v] = false := by
    rw [← hfalse, List.getD_eq_getElem?_getD, List.getElem?_eq_getElem hlt]
    rfl
  unfold visCount
  rw [List.countP_set _ _ _ _ hlt, hget]
  simp

theorem unvisCount_set_true {vis : List Bool} {v : Nat} (hlt : v < vis.length)
    (hfalse : vis.getD v false = false) :
    unvisCount (vis.set v true) + 1 = unvisCount vis := by
  have hget : vis[v] = false := by
    rw [← hfalse, List.getD_eq_getElem?_getD, List.getElem?_eq_getElem hlt]
    rfl
  have hpos : 0 < unvisCount vis := by
    unfold unvisCount
    rw [List.countP_pos_iff]
    exact ⟨false, by rw [← hget]; exact List.getElem_mem hlt, rfl⟩
  unfold unvisCount at *
  rw [List.countP_set _ _ _ _ hlt, hget]
  simp
  omega

theorem midInv_discover {adj : List (List AdjacencyInfo)} {openSet : List BranchId}
    {si ti n u : Nat} (hb : AdjBounded adj n)
    {s : BfsSt} {dst : Nat → Nat} (M : MidInv adj openSet si ti n u s dst)
    {c : AdjacencyInfo} (hc : c ∈ adj.getD u []) (hopen : c.branch_id ∉ openSet)
    (hunvis : s.visited.getD c.internal_bus_idx false = false) :
    MidInv adj openSet si ti n u
      ⟨s.queue ++ [c.internal_bus_idx], s.visited.set c.internal_bus_idx true,
        s.pred.set c.internal_bus_idx (some (u, c.branch_id))⟩
      (fun x => if x = c.internal_bus_idx then dst u + 1 else dst x) := by
  set w := c.internal_bus_idx with hw
  have hedge : EdgeB adj openSet u c.branch_id w := by
    refine ⟨?_, hopen⟩
    rw [hw]
    exact hc
  have hwn : w < n := edgeB_lt hb hedge
  have hwvis : w < s.visited.length := by rw [M.vlen]; exact hwn
  have hwpred : w < s.pred.length := by rw [M.plen]; exact hwn
  have hWne : ∀ v, s.visited.getD v false = true → v ≠ w := by
    intro v hv hvw
    rw [hvw, hunvis] at hv
    cases hv
  have hvis' : ∀ v, (s.visited.set w true).getD v false = true ↔
      (v = w ∨ s.visited.getD v false = true) := by
    intro v
    by_cases hvw : v = w
    · subst hvw
      rw [getD_set_self _ _ hwvis]
      simp
    · rw [getD_set_ne _ (fun hh => hvw hh.symm)]
      constructor
      · exact Or.inr
      · intro hh
        rcases hh with hh | hh
        · exact absurd hh hvw
        · exact hh
  have hune : u ≠ w := hWne u M.u_vis
  have hsine : si ≠ w := hWne si M.core.vis_si
  have hIsDist : IsDist adj openSet si w (dst u + 1) :=
    ⟨Reach.succ (M.core.dist u M.u_vis).1 hedge,
      fun m hm => midInv_escape M m w hm hunvis⟩
  have hvcount : visCount (s.visited.set w true) = visCount s.visited + 1 :=
    visCount_set_true hwvis hunvis
  have hitew : (if w = w then dst u + 1 else dst w) = dst u + 1 := by simp
  have hiteu : (if u = w then dst u + 1 else dst u) = dst u := by simp [hune]
  have hitea : ∀ a, a ≠ w → (if a = w then dst u + 1 else dst a) = dst a := by
    intro a ha
    simp [ha]
  refine
    { vlen := by rw [List.length_set]; exact M.vlen
      plen := by rw [List.length_set]; exact M.plen
      u_lt := M.u_lt
      u_ne := M.u_ne
      u_vis := ?_
      u_notQ := ?_
      Qlt := ?_
      Qvis := ?_
      Qnd := ?_
      Qband := ?_
      Qlev := ?_
      others_scanned := ?_
      target := ?_
      core := ?_ }
  · refine
      { vis_si := (hvis' si).mpr (Or.inr M.core.vis_si)
        pred_si := ?_
        dst_si := ?_
        dist := ?_
        chain := ?_
        bound := ?_ }
    · show (s.pred.set w (some (u, c.branch_id))).getD si none = none
      rw [getD_set_ne _ (fun hh => hsine hh.symm)]
      exact M.core.pred_si
    · simp only [if_neg hsine]
      exact M.core.dst_si
    · intro v hv
      rcases (hvis' v).mp hv with hh | hh
      · subst hh
        simp only [if_pos rfl]
        exact hIsDist
      · have hvw : v ≠ w := hWne v hh
        simp only [if_neg hvw]
        exact M.core.dist v hh
    · intro v hv hvsi
      rcases (hvis' v).mp hv with hh | hh
      · subst hh
        refine ⟨u, c.branch_id, ?_, ?_, hedge, ?_⟩
        · exact getD_set_self _ _ hwpred _ _
        · rw [getD_set_ne _ (fun hh2 => hune hh2.symm)]
          exact M.u_vis
        · rw [hitew, hiteu]
      · have hvw : v ≠ w := hWne v hh
        obtain ⟨u0, b0, hp, hvis0, he0, hd0⟩ := M.core.chain v hh hvsi
        refine ⟨u0, b0, ?_, (hvis' u0).mpr (Or.inr hvis0), he0, ?_⟩
        · rw [getD_set_ne _ (fun hh2 => hvw hh2.symm)]
          exact hp
        · have hu0w : u0 ≠ w := hWne u0 hvis0
          simp only [if_neg hvw, if_neg hu0w]
          exact hd0
    · intro v hv
      rw [hvcount]
      rcases (hvis' v).mp hv with hh | hh
      · subst hh
        rw [hitew]
        have := M.core.bound u M.u_vis
        omega
      · have hvw : v ≠ w := hWne v hh
        simp only [if_neg hvw]
        have := M.core.bound v hh
        omega
  · show (s.visited.set w true).getD u false = true
    rw [getD_set_ne _ (fun hh => hune hh.symm)]
    exact M.u_vis
  · show u ∉ s.queue ++ [w]
    intro hm
    rcases List.mem_append.mp hm with hm | hm
    · exact M.u_notQ hm
    · exact hune (List.mem_singleton.mp hm)
  · intro q hq
    rcases List.mem_append.mp hq with hq | hq
    · exact M.Qlt q hq
    · rw [List.mem_singleton.mp hq]; exact hwn
  · intro q hq
    rcases List.mem_append.mp hq with hq | hq
    · exact (hvis' q).mpr (Or.inr (M.Qvis q hq))
    · rw [List.mem_singleton.mp hq]
      exact (hvis' w).mpr (Or.inl rfl)
  · rw [List.nodup_append]
    refine ⟨M.Qnd, List.nodup_singleton _, ?_⟩
    intro a ha hb'
    rw [List.mem_singleton.mp hb'] at ha
    exact hWne w (M.Qvis _ ha) rfl
  · intro q hq
    rcases List.mem_append.mp hq with hq | hq
    · have hqne : q ≠ w := hWne q (M.Qvis q hq)
      have := M.Qband q hq
      simp only [if_neg hqne, if_neg hune]
      exact this
    · rw [List.mem_singleton.mp hq]
      rw [hiteu, hitew]
      omega
  · rw [List.pairwise_append]
    refine ⟨?_, List.pairwise_singleton _ _, ?_⟩
    · refine M.Qlev.imp_of_mem ?_
      intro a b ha hb'
      have hane : a ≠ w := hWne a (M.Qvis a ha)
      have hbne : b ≠ w := hWne b (M.Qvis b hb')
      simp only [if_neg hane, if_neg hbne]
      exact id
    · intro a ha b hb'
      rw [List.mem_singleton.mp hb']
      have hane : a ≠ w := hWne a (M.Qvis a ha)
      have := M.Qband a ha
      rw [hitea a hane, hitew]
      omega
  · intro v hv hvq hvu cc hcc hccopen
    have hvw : v ≠ w := by
      intro hh
      exact hvq (by rw [hh]; exact List.mem_append.mpr (Or.inr (List.mem_singleton.mpr rfl)))
    have hvold : s.visited.getD v false = true := by
      rcases (hvis' v).mp hv with hh | hh
      · exact absurd hh hvw
      · exact hh
    have hvqold : v ∉ s.queue := fun hh => hvq (List.mem_append.mpr (Or.inl hh))
    have := M.others_scanned v hvold hvqold hvu cc hcc hccopen
    exact (hvis' _).mpr (Or.inr this)
  · intro hti
    rcases (hvis' ti).mp hti with hh | hh
    · exact List.mem_append.mpr (Or.inr (by rw [hh]; exact List.mem_singleton.mpr rfl))
    · exact List.mem_append.mpr (Or.inl (M.target hh))

end PowerSystemTopology

namespace PowerSystemTopology

theorem scan_fold {adj : List (List AdjacencyInfo)} {openSet : List BranchId}
    {si ti n u : Nat} (hb : AdjBounded adj n) :
    ∀ (todo : List AdjacencyInfo) (s : BfsSt) (dst : Nat → Nat),
      MidInv adj openSet si ti n u s dst →
      (∀ c ∈ todo, c ∈ adj.getD u []) →
      ∃ dst',
        MidInv adj openSet si ti n u (todo.foldl (scanStep openSet u) s) dst' ∧
        (∀ v, s.visited.getD v false = true →
          (todo.foldl (scanStep openSet u) s).visited.getD v false = true) ∧
        (∀ c ∈ todo, c.branch_id ∉ openSet →
          (todo.foldl (scanStep openSet u) s).visited.getD c.internal_bus_idx false = true) ∧
        (∃ news, (todo.foldl (scanStep openSet u) s).queue = s.queue ++ news) ∧
        ((todo.foldl (scanStep openSet u) s).queue.length +
            unvisCount (todo.foldl (scanStep openSet u) s).visited =
          s.queue.length + unvisCount s.visited) := by
  intro todo
  induction todo with
  | nil =>
    intro s dst M htodo
    exact ⟨dst, M, fun v h => h, fun c hc => absurd hc (List.not_mem_nil c),
      ⟨[], by simp⟩, rfl⟩
  | cons c todo ih =>
    intro s dst M htodo
    rw [List.foldl_cons]
    by_cases hop : c.branch_id ∈ openSet
    · have hstep : scanStep openSet u s c = s := by
        unfold scanStep
        rw [if_pos hop]
      rw [hstep]
      obtain ⟨dst', hM, hmono, htgt, ⟨news, hq⟩, hms⟩ :=
        ih s dst M (fun c' h => htodo c' (List.mem_cons_of_mem _ h))
      refine ⟨dst', hM, hmono, ?_, ⟨news, hq⟩, hms⟩
      intro c' hc' hc'open
      rcases List.mem_cons.mp hc' with hh | hh
      · exact absurd (hh ▸ hop) hc'open
      · exact htgt c' hh hc'open
    · by_cases hvis : s.visited.getD c.internal_bus_idx false = true
      · have hstep : scanStep openSet u s c = s := by
          unfold scanStep
          rw [if_neg hop, if_pos hvis]
        rw [hstep]
        obtain ⟨dst', hM, hmono, htgt, ⟨news, hq⟩, hms⟩ :=
          ih s dst M (fun c' h => htodo c' (List.mem_cons_of_mem _ h))
        refine ⟨dst', hM, hmono, ?_, ⟨news, hq⟩, hms⟩
        intro c' hc' hc'open
        rcases List.mem_cons.mp hc' with hh | hh
        · rw [hh]
          exact hmono _ hvis
        · exact htgt c' hh hc'open
      · have hunvis : s.visited.getD c.internal_bus_idx false = false :=
          Bool.eq_false_iff.mpr hvis
        have hcmem : c ∈ adj.getD u [] := htodo c (List.mem_cons_self _ _)
        have hwn : c.internal_bus_idx < n := edgeB_lt hb ⟨hcmem, hop⟩
        have hwvis : c.internal_bus_idx < s.visited.length := by
          rw [M.vlen]
          exact hwn
        have hstep : scanStep openSet u s c =
            ⟨s.queue ++ [c.internal_bus_idx], s.visited.set c.internal_bus_idx true,
              s.pred.set c.internal_bus_idx (some (u, c.branch_id))⟩ := by
          unfold scanStep
          rw [if_neg hop, if_neg hvis]
        rw [hstep]
        have M' := midInv_discover hb M hcmem hop hunvis
        obtain ⟨dst', hM, hmono, htgt, ⟨news, hq⟩, hms⟩ :=
          ih _ _ M' (fun c' h => htodo c' (List.mem_cons_of_mem _ h))
        have hsetvis : (s.visited.set c.internal_bus_idx true).getD c.internal_bus_idx false
            = true := getD_set_self _ _ hwvis _ _
        refine ⟨dst', hM, ?_, ?_, ⟨c.internal_bus_idx :: news, ?_⟩, ?_⟩
        · intro v hv
          have hvw : v ≠ c.internal_bus_idx := by
            intro hh
            rw [hh, hunvis] at hv
            cases hv
          refine hmono v ?_
          show (s.visited.set c.internal_bus_idx true).getD v false = true
          rw [getD_set_ne _ (fun hh2 => hvw hh2.symm)]
          exact hv
        · intro c' hc' hc'open
          rcases List.mem_cons.mp hc' with hh | hh
          · rw [hh]
            exact hmono _ hsetvis
          · exact htgt c' hh hc'open
        · rw [hq]
          show _ = s.queue ++ ([c.internal_bus_idx] ++ news)
          rw [← List.append_assoc]
        · have hms2 : unvisCount (s.visited.set c.internal_bus_idx true) + 1 =
            unvisCount s.visited := unvisCount_set_true hwvis hunvis
          have hql : (s.queue ++ [c.internal_bus_idx]).length = s.queue.length + 1 := by
            simp
        -- combine
          rw [hms]
          show (s.queue ++ [c.internal_bus_idx]).length +
              unvisCount (s.visited.set c.internal_bus_idx true) = _
          rw [hql]
          omega

end PowerSystemTopology

namespace PowerSystemTopology

theorem bfsInv_pop {adj : List (List AdjacencyInfo)} {openSet : List BranchId}
    {si ti n : Nat} {s : BfsSt} {dst : Nat → Nat} {u : Nat} {rest : List Nat}
    (B : BfsInv adj openSet si ti n s dst) (hq : s.queue = u :: rest) (hne : u ≠ ti) :
    MidInv adj openSet si ti n u ⟨rest, s.visited, s.pred⟩ dst := by
  have humem : u ∈ s.queue := by rw [hq]; exact List.mem_cons_self _ _
  have hQcons := B.Qlev
  rw [hq] at hQcons
  obtain ⟨hband, htail⟩ := List.pairwise_cons.mp hQcons
  have hnd := B.Qnd
  rw [hq] at hnd
  refine
    { vlen := B.vlen
      plen := B.plen
      core := B.core
      u_lt := B.Qlt u humem
      u_vis := B.Qvis u humem
      u_notQ := (List.nodup_cons.mp hnd).1
      u_ne := hne
      Qlt := fun q hq' => B.Qlt q (by rw [hq]; exact List.mem_cons_of_mem _ hq')
      Qvis := fun q hq' => B.Qvis q (by rw [hq]; exact List.mem_cons_of_mem _ hq')
      Qnd := (List.nodup_cons.mp hnd).2
      Qband := hband
      Qlev := htail
      others_scanned := ?_
      target := ?_ }
  · intro v hv hvrest hvu c hc hcop
    refine B.scanned v hv ?_ c hc hcop
    rw [hq]
    intro hmem
    rcases List.mem_cons.mp hmem with hh | hh
    · exact hvu hh
    · exact hvrest hh
  · intro hti
    have := B.target hti
    rw [hq] at this
    rcases List.mem_cons.mp this with hh | hh
    · exact absurd hh.symm (Ne.symm (fun hh2 => hne hh2.symm))
    · exact hh

theorem midInv_close {adj : List (List AdjacencyInfo)} {openSet : List BranchId}
    {si ti n u : Nat} {s : BfsSt} {dst : Nat → Nat}
    (M : MidInv adj openSet si ti n u s dst)
    (hscanu : ∀ c ∈ adj.getD u [], c.branch_id ∉ openSet →
      s.visited.getD c.internal_bus_idx false = true) :
    BfsInv adj openSet si ti n s dst := by
  refine
    { vlen := M.vlen
      plen := M.plen
      core := M.core
      Qlt := M.Qlt
      Qvis := M.Qvis
      Qnd := M.Qnd
      Qlev := M.Qlev
      target := M.target
      scanned := ?_ }
  intro v hv hvq c hc hcop
  by_cases hvu : v = u
  · subst hvu
    exact hscanu c hc hcop
  · exact M.others_scanned v hv hvq hvu c hc hcop

theorem bfsLoop_spec {adj : List (List AdjacencyInfo)} {openSet : List BranchId}
    {si ti n : Nat} (hb : AdjBounded adj n) :
    ∀ (fuel : Nat) (s : BfsSt) (dst : Nat → Nat),
      BfsInv adj openSet si ti n s dst →
      s.queue.length + unvisCount s.visited ≤ fuel →
      (((bfsLoop adj openSet ti fuel s).1 = true →
        ∃ vis dst', ChainInv adj openSet si vis (bfsLoop adj openSet ti fuel s).2 dst' ∧
          vis.getD ti false = true ∧ vis.length = n) ∧
      ((bfsLoop adj openSet ti fuel s).1 = false → ∀ k, ¬ Reach adj openSet si k ti)) := by
  intro fuel
  induction fuel with
  | zero =>
    intro s dst B hmeas
    have hq : s.queue = [] := List.eq_nil_of_length_eq_zero (by omega)
    constructor
    · intro hfound
      exact absurd hfound (by simp [bfsLoop])
    · intro _ k hk
      by_cases hv : s.visited.getD ti false = true
      · have := B.target hv
        rw [hq] at this
        cases this
      · obtain ⟨q, hqm, _⟩ := bfsInv_escape B k ti hk (Bool.eq_false_iff.mpr hv)
        rw [hq] at hqm
        cases hqm
  | succ fuel ih =>
    intro s dst B hmeas
    cases hq : s.queue with
    | nil =>
      have hred : bfsLoop adj openSet ti (fuel + 1) s = (false, s.pred) := by
        show (match s.queue with
          | [] => (false, s.pred)
          | u :: rest =>
            if u = ti then (true, s.pred)
            else bfsLoop adj openSet ti fuel
              ((adj.getD u []).foldl (scanStep openSet u) { s with queue := rest })) =
          (false, s.pred)
        rw [hq]
      rw [hred]
      constructor
      · intro hfound
        cases hfound
      · intro _ k hk
        by_cases hv : s.visited.getD ti false = true
        · have := B.target hv
          rw [hq] at this
          cases this
        · obtain ⟨q, hqm, _⟩ := bfsInv_escape B k ti hk (Bool.eq_false_iff.mpr hv)
          rw [hq] at hqm
          cases hqm
    | cons u rest =>
      by_cases hti : u = ti
      · have hred : bfsLoop adj openSet ti (fuel + 1) s = (true, s.pred) := by
          show (match s.queue with
            | [] => (false, s.pred)
            | u :: rest =>
              if u = ti then (true, s.pred)
              else bfsLoop adj openSet ti fuel
                ((adj.getD u []).foldl (scanStep openSet u) { s with queue := rest })) =
            (true, s.pred)
          rw [hq]
          dsimp only
          rw [if_pos hti]
        rw [hred]
        constructor
        · intro _
          refine ⟨s.visited, dst, B.core, ?_, B.vlen⟩
          rw [← hti]
          exact B.Qvis u (by rw [hq]; exact List.mem_cons_self _ _)
        · intro hfalse
          cases hfalse
      · have hred : bfsLoop adj openSet ti (fuel + 1) s = bfsLoop adj openSet ti fuel
            ((adj.getD u []).foldl (scanStep openSet u) ⟨rest, s.visited, s.pred⟩) := by
          show (match s.queue with
            | [] => (false, s.pred)
            | u :: rest =>
              if u = ti then (true, s.pred)
              else bfsLoop adj openSet ti fuel
                ((adj.getD u []).foldl (scanStep openSet u) { s with queue := rest })) = _
          rw [hq]
          dsimp only
          rw [if_neg hti]
        have M := bfsInv_pop B hq hti
        obtain ⟨dst', hM, hmono, htgt, ⟨news, hq'⟩, hms⟩ :=
          scan_fold hb (adj.getD u []) ⟨rest, s.visited, s.pred⟩ dst M (fun c h => h)
        have B' := midInv_close hM htgt
        have hlen : s.queue.length = rest.length + 1 := by rw [hq]; rfl
        have hmeas' : ((adj.getD u []).foldl (scanStep openSet u)
            ⟨rest, s.visited, s.pred⟩).queue.length +
            unvisCount ((adj.getD u []).foldl (scanStep openSet u)
              ⟨rest, s.visited, s.pred⟩).visited ≤ fuel := by
          have h1 : (⟨rest, s.visited, s.pred⟩ : BfsSt).queue.length = rest.length := rfl
          have h2 : unvisCount (⟨rest, s.visited, s.pred⟩ : BfsSt).visited =
            unvisCount s.visited := rfl
          omega
        rw [hred]
        exact ih _ dst' B' hmeas'

end PowerSystemTopology

namespace PowerSystemTopology

theorem walkIdx_snoc {adj : List (List AdjacencyInfo)} {openSet : List BranchId} :
    ∀ {xs : List Nat} {bs : List BranchId} {u : Nat} {b : BranchId} {v : Nat},
      WalkIdx adj openSet xs bs → xs.getLast? = some u → EdgeB adj openSet u b v →
      WalkIdx adj openSet (xs ++ [v]) (bs ++ [b]) := by
  intro xs bs u b v hw
  induction hw with
  | single w =>
    intro hlast he
    have hwu : w = u := by simpa using hlast
    subst hwu
    exact .cons he (.single v)
  | cons he0 hw0 ih =>
    rename_i u0 b0 v0 rest bs0
    intro hlast he
    rw [List.getLast?_cons_cons] at hlast
    exact .cons he0 (ih hlast he)

theorem rebuild_spec {adj : List (List AdjacencyInfo)} {openSet : List BranchId}
    {si : Nat} {vis : List Bool} {pq : List (Option (Nat × BranchId))}
    {dst : Nat → Nat} (busIds : List BusId)
    (C : ChainInv adj openSet si vis pq dst) :
    ∀ (fuel : Nat) (v : Nat), vis.getD v false = true → dst v < fuel →
      ∃ idxs brs, rebuildPath busIds pq fuel v =
          (idxs.map (fun i => busIds.getD i 0), brs) ∧
        idxs.head? = some si ∧ idxs.getLast? = some v ∧
        WalkIdx adj openSet idxs brs ∧ idxs.length = dst v + 1 ∧
        brs.length = dst v := by
  intro fuel
  induction fuel with
  | zero =>
    intro v _ h
    omega
  | succ fuel ih =>
    intro v hv hlt
    by_cases hvsi : v = si
    · subst hvsi
      refine ⟨[v], [], ?_, rfl, rfl, .single v, ?_, ?_⟩
      · show (match pq.getD v none with
          | none => ([busIds.getD v 0], [])
          | some (p, b) =>
            ((rebuildPath busIds pq fuel p).1 ++ [busIds.getD v 0],
              (rebuildPath busIds pq fuel p).2 ++ [b])) =
          ([v].map (fun i => busIds.getD i 0), [])
        rw [C.pred_si]
        rfl
      · rw [C.dst_si]
        rfl
      · rw [C.dst_si]
        rfl
    · obtain ⟨u0, b0, hp, hvis0, he0, hd0⟩ := C.chain v hv hvsi
      have hltu : dst u0 < fuel := by omega
      obtain ⟨idxs, brs, hrw, hhead, hlast, hwalk, hlen1, hlen2⟩ := ih u0 hvis0 hltu
      have hstep : rebuildPath busIds pq (fuel + 1) v =
          ((rebuildPath busIds pq fuel u0).1 ++ [busIds.getD v 0],
            (rebuildPath busIds pq fuel u0).2 ++ [b0]) := by
        show (match pq.getD v none with
          | none => ([busIds.getD v 0], [])
          | some (p, b) =>
            ((rebuildPath busIds pq fuel p).1 ++ [busIds.getD v 0],
              (rebuildPath busIds pq fuel p).2 ++ [b])) = _
        rw [hp]
      refine ⟨idxs ++ [v], brs ++ [b0], ?_, ?_, List.getLast?_concat idxs,
        walkIdx_snoc hwalk hlast he0, ?_, ?_⟩
      · rw [hstep, hrw]
        simp
      · rw [List.head?_append, hhead]
        rfl
      · simp [hlen1, hd0]
      · simp [hlen2, hd0]

theorem bfsInv_init {adj : List (List AdjacencyInfo)} {openSet : List BranchId}
    {si ti n : Nat} (hsi : si < n) (hne : si ≠ ti) :
    BfsInv adj openSet si ti n
      ⟨[si], (List.replicate n false).set si true, List.replicate n none⟩
      (fun _ => 0) := by
  have hsilt : si < (List.replicate n false).length := by
    rw [List.length_replicate]
    exact hsi
  have hvis : ∀ v, ((List.replicate n false).set si true).getD v false = true ↔ v = si := by
    intro v
    by_cases hvsi : v = si
    · subst hvsi
      rw [getD_set_self _ _ hsilt]
      simp
    · rw [getD_set_ne _ (fun hh => hvsi hh.symm), getD_replicate]
      simp [hvsi]
  have hvc : visCount ((List.replicate n false).set si true) = 1 := by
    unfold visCount
    rw [List.countP_set _ _ _ _ hsilt]
    simp [List.countP_replicate]
  refine
    { vlen := by rw [List.length_set, List.length_replicate]
      plen := List.length_replicate _ _
      core := ?_
      Qlt := ?_
      Qvis := ?_
      Qnd := List.nodup_singleton _
      Qlev := List.pairwise_singleton _ _
      scanned := ?_
      target := ?_ }
  · refine
      { vis_si := (hvis si).mpr rfl
        pred_si := getD_replicate _ _ _
        dst_si := rfl
        dist := ?_
        chain := ?_
        bound := ?_ }
    · intro v hv
      rw [(hvis v).mp hv]
      exact ⟨Reach.zero, fun m _ => Nat.zero_le m⟩
    · intro v hv hvsi
      exact absurd ((hvis v).mp hv) hvsi
    · intro v hv
      rw [hvc]
  · intro q hq
    rw [List.mem_singleton.mp hq]
    exact hsi
  · intro q hq
    rw [List.mem_singleton.mp hq]
    exact (hvis si).mpr rfl
  · intro v hv hvq
    exact absurd (by rw [(hvis v).mp hv]; exact List.mem_singleton.mpr rfl) hvq
  · intro hti
    exact absurd ((hvis ti).mp hti).symm hne

/-- Claim C7: `findPath` — for well-formed topologies: an unknown endpoint
gives `none`; equal endpoints give the single-bus path; otherwise the result
is `none` exactly when no walk avoiding the open set joins the endpoints, and
any returned path renders an internal-index walk from source to target whose
branches are adjacency entries outside the open set, has one branch fewer
than buses, and whose branch count is the breadth-first shortest edge-count
distance under those exclusions. -/
theorem findPath_meets_spec (topo : Topology) (s t : BusId)
    (open_branches : List BranchId) (hwf : TopoWF topo) :
    ((getBusInternalIndex topo s = none ∨ getBusInternalIndex topo t = none) →
      findPath topo s t open_branches = none) ∧
    (∀ si, getBusInternalIndex topo s = some si → getBusInternalIndex topo t = some si →
      findPath topo s t open_branches = some ⟨[s], []⟩) ∧
    (∀ si ti, getBusInternalIndex topo s = some si → getBusInternalIndex topo t = some ti →
      si ≠ ti →
      ((findPath topo s t open_branches = none ↔
          ¬ ∃ k, Reach topo.adjacency_list open_branches si k ti) ∧
        ∀ p, findPath topo s t open_branches = some p →
          ∃ idxs, p.buses = idxs.map (fun i => topo.internal_idx_to_bus_id.getD i 0) ∧
            idxs.head? = some si ∧ idxs.getLast? = some ti ∧
            p.buses.head? = some s ∧ p.buses.getLast? = some t ∧
            WalkIdx topo.adjacency_list open_branches idxs p.branches ∧
            p.buses.length = p.branches.length + 1 ∧
            IsDist topo.adjacency_list open_branches si ti p.branches.length)) := by
  obtain ⟨hlen, hbound, hmap⟩ := hwf
  have hlook : ∀ b i, getBusInternalIndex topo b = some i →
      i < getBusCount topo ∧ topo.internal_idx_to_bus_id.getD i 0 = b := by
    intro b i h
    unfold getBusInternalIndex lookupIdx at h
    cases hf : topo.bus_to_internal_idx.find? (fun p => p.1 = b) with
    | none => rw [hf] at h; cases h
    | some q =>
      rw [hf] at h
      have hpred := List.find?_some hf
      have hq1 : q.1 = b := of_decide_eq_true hpred
      have hq2 : q.2 = i := by simpa using h
      have hm := hmap q (List.mem_of_find?_eq_some hf)
      rw [hq2, hq1] at hm
      exact hm
  refine ⟨?_, ?_, ?_⟩
  · intro h
    unfold findPath
    rcases h with h | h
    · rw [h]
    · rw [h]
      cases hs : getBusInternalIndex topo s <;> rfl
  · intro si hs ht
    unfold findPath
    rw [hs, ht]
    dsimp only
    rw [if_pos rfl]
  · intro si ti hs ht hne
    obtain ⟨hsin, hsrender⟩ := hlook s si hs
    obtain ⟨htin, htrender⟩ := hlook t ti ht
    set n := getBusCount topo with hn
    set s0 : BfsSt := ⟨[si], (List.replicate n false).set si true,
      List.replicate n none⟩ with hs0
    set r := bfsLoop topo.adjacency_list open_branches ti (n + 1) s0 with hr
    have hred : findPath topo s t open_branches =
        (if r.1 then
          some ⟨(rebuildPath topo.internal_idx_to_bus_id r.2 (n + 1) ti).1,
            (rebuildPath topo.internal_idx_to_bus_id r.2 (n + 1) ti).2⟩
        else none) := by
      unfold findPath
      rw [hs, ht]
      dsimp only
      rw [if_neg hne]
    have hinit := @bfsInv_init topo.adjacency_list open_branches si ti n hsin hne
    have hmeas : s0.queue.length + unvisCount s0.visited ≤ n + 1 := by
      have h1 : s0.queue.length = 1 := rfl
      have h2 : unvisCount s0.visited + 1 = n := by
        have h3 : unvisCount ((List.replicate n false).set si true) + 1 =
            unvisCount (List.replicate n false) :=
          unvisCount_set_true (by rw [List.length_replicate]; exact hsin)
            (getD_replicate _ _ _)
        have h4 : unvisCount (List.replicate n false) = n := by
          unfold unvisCount
          rw [List.countP_replicate]
          simp
        rw [← h4]
        exact h3
      omega
    obtain ⟨hfound, hnotfound⟩ := bfsLoop_spec hbound (n + 1) s0 (fun _ => 0) hinit hmeas
    rw [← hr] at hfound hnotfound
    rw [hred]
    cases hrb : r.1 with
    | false =>
      simp only [Bool.false_eq_true, if_false]
      refine ⟨?_, ?_⟩
      · constructor
        · intro _ hex
          obtain ⟨k, hk⟩ := hex
          exact hnotfound hrb k hk
        · intro _
          trivial
      · intro p hp
        cases hp
    | true =>
      have htt : true = true := rfl
      rw [if_pos htt]
      obtain ⟨vis, dst', C, hvisti, hvlen⟩ := hfound hrb
      have hb1 : dst' ti + 1 ≤ visCount vis := C.bound ti hvisti
      have hb2 : visCount vis ≤ n := by
        rw [← hvlen]
        exact List.countP_le_length _
      have hlt : dst' ti < n + 1 := by omega
      obtain ⟨idxs, brs, hrw, hhead, hlast, hwalk, hlen1, hlen2⟩ :=
        rebuild_spec topo.internal_idx_to_bus_id C (n + 1) ti hvisti hlt
      have hfst : (rebuildPath topo.internal_idx_to_bus_id r.2 (n + 1) ti).1 =
          idxs.map (fun i => topo.internal_idx_to_bus_id.getD i 0) := by
        rw [hrw]
      have hsnd : (rebuildPath topo.internal_idx_to_bus_id r.2 (n + 1) ti).2 = brs := by
        rw [hrw]
      refine ⟨?_, ?_⟩
      · constructor
        · intro h
          cases h
        · intro hnr
          exact absurd ⟨dst' ti, (C.dist ti hvisti).1⟩ hnr
      · intro p hp
        have hp' : (⟨(rebuildPath topo.internal_idx_to_bus_id r.2 (n + 1) ti).1,
            (rebuildPath topo.internal_idx_to_bus_id r.2 (n + 1) ti).2⟩ : Path) = p := by
          injection hp
        rw [← hp']
        refine ⟨idxs, ?_, hhead, hlast, ?_, ?_, ?_, ?_, ?_⟩
        · exact hfst
        · show (rebuildPath topo.internal_idx_to_bus_id r.2 (n + 1) ti).1.head? = some s
          rw [hfst, List.head?_map, hhead]
          rw [← hsrender]
          rfl
        · show (rebuildPath topo.internal_idx_to_bus_id r.2 (n + 1) ti).1.getLast? = some t
          rw [hfst, List.getLast?_map, hlast]
          rw [← htrender]
          rfl
        · show WalkIdx topo.adjacency_list open_branches idxs
            (rebuildPath topo.internal_idx_to_bus_id r.2 (n + 1) ti).2
          rw [hsnd]
          exact hwalk
        · show (rebuildPath topo.internal_idx_to_bus_id r.2 (n + 1) ti).1.length =
            (rebuildPath topo.internal_idx_to_bus_id r.2 (n + 1) ti).2.length + 1
          rw [hfst, hsnd, List.length_map, hlen1, hlen2]
        · show IsDist topo.adjacency_list open_branches si ti
            (rebuildPath topo.internal_idx_to_bus_id r.2 (n + 1) ti).2.length
          rw [hsnd, hlen2]
          exact C.dist ti hvisti

end PowerSystemTopology

namespace PowerSystemTopology

/-- Witness for C7 on the four-bus chain 10—20—30—40 (branches 100, 101,
102): equal endpoints give the single-bus path, and with branch 101 opened no
path joins bus 10 to bus 40. -/
theorem findPath_meets_spec_witness :
    findPath
      (⟨[[⟨100, 1⟩], [⟨100, 0⟩, ⟨101, 2⟩], [⟨101, 1⟩, ⟨102, 3⟩], [⟨102, 2⟩]],
        [(10, 0), (20, 1), (30, 2), (40, 3)], [10, 20, 30, 40],
        [(100, 10, 20), (101, 20, 30), (102, 30, 40)]⟩ : Topology)
      10 10 [] = some ⟨[10], []⟩ ∧
    (findPath
      (⟨[[⟨100, 1⟩], [⟨100, 0⟩, ⟨101, 2⟩], [⟨101, 1⟩, ⟨102, 3⟩], [⟨102, 2⟩]],
        [(10, 0), (20, 1), (30, 2), (40, 3)], [10, 20, 30, 40],
        [(100, 10, 20), (101, 20, 30), (102, 30, 40)]⟩ : Topology)
      10 40 [101] = none ↔
      ¬ ∃ k, Reach [[⟨100, 1⟩], [⟨100, 0⟩, ⟨101, 2⟩], [⟨101, 1⟩, ⟨102, 3⟩], [⟨102, 2⟩]]
        [101] 0 k 3) :=
  ⟨(findPath_meets_spec
      (⟨[[⟨100, 1⟩], [⟨100, 0⟩, ⟨101, 2⟩], [⟨101, 1⟩, ⟨102, 3⟩], [⟨102, 2⟩]],
        [(10, 0), (20, 1), (30, 2), (40, 3)], [10, 20, 30, 40],
        [(100, 10, 20), (101, 20, 30), (102, 30, 40)]⟩ : Topology)
      10 10 [] (by decide)).2.1 0 (by decide) (by decide),
    ((findPath_meets_spec
      (⟨[[⟨100, 1⟩], [⟨100, 0⟩, ⟨101, 2⟩], [⟨101, 1⟩, ⟨102, 3⟩], [⟨102, 2⟩]],
        [(10, 0), (20, 1), (30, 2), (40, 3)], [10, 20, 30, 40],
        [(100, 10, 20), (101, 20, 30), (102, 30, 40)]⟩ : Topology)
      10 40 [101] (by decide)).2.2 0 3 (by decide) (by decide) (by decide)).1⟩

end PowerSystemTopology
